import Mathlib

/-!
Verification of the qscript PsiScript front end and its two lowering
backends (gate emitter and pulse scheduler), as implemented in
src/psi_lang.py, src/compiler/qasm_compiler.py and
src/compiler/pulse_compiler.py.

Python strings are modelled as lists of characters and Python floats as
exact fractions (an integer numerator over a positive natural
denominator, not normalized); the map Fr.val sends such a fraction to
the rational number it denotes, and all quantitative theorem statements
are phrased through Fr.val.
-/

/-- Python strings are modelled as lists of characters. -/
abbrev Str := List Char

/-- Opening brace character (written by code point to keep sources plain). -/
def obrC : Char := Char.ofNat 123

/-- Closing brace character. -/
def cbrC : Char := Char.ofNat 125

/-- Single-quote character. -/
def squoteC : Char := Char.ofNat 39

/-- Python str.strip() / regex whitespace class: space, tab, newline,
carriage return, vertical tab, form feed. -/
def isPyWs (c : Char) : Bool :=
  c == ' ' || c == Char.ofNat 9 || c == Char.ofNat 10 || c == Char.ofNat 13 ||
    c == Char.ofNat 11 || c == Char.ofNat 12

/-- Regex digit class. -/
def isDigitC (c : Char) : Bool :=
  48 ≤ c.toNat && c.toNat ≤ 57

/-- ASCII letter (regex [a-zA-Z]). -/
def isAlphaC (c : Char) : Bool :=
  (65 ≤ c.toNat && c.toNat ≤ 90) || (97 ≤ c.toNat && c.toNat ≤ 122)

/-- Regex word class (ASCII letters, digits, underscore). -/
def isWordC (c : Char) : Bool :=
  isAlphaC c || isDigitC c || c == '_'

/-- ASCII lower-casing of one character (Python str.lower on the inputs
this code meets). -/
def lowerC (c : Char) : Char :=
  if 65 ≤ c.toNat && c.toNat ≤ 90 then Char.ofNat (c.toNat + 32) else c

/-- ASCII upper-casing of one character. -/
def upperC (c : Char) : Char :=
  if 97 ≤ c.toNat && c.toNat ≤ 122 then Char.ofNat (c.toNat - 32) else c

/-- Python str.lower(). -/
def lowerS (s : Str) : Str := s.map lowerC

/-- Python str.upper(). -/
def upperS (s : Str) : Str := s.map upperC

/-- Python str.strip(): drop whitespace from both ends. -/
def pyStrip (s : Str) : Str :=
  ((s.dropWhile isPyWs).reverse.dropWhile isPyWs).reverse

/-- Python str.strip(chars): drop any of the given characters from both
ends. -/
def pyStripChars (cs : Str) (s : Str) : Str :=
  ((s.dropWhile (cs.contains ·)).reverse.dropWhile (cs.contains ·)).reverse

/-- Substring containment (Python `needle in s`). -/
def containsSub (needle : Str) : Str → Bool
  | [] => needle.isEmpty
  | c :: rest => needle.isPrefixOf (c :: rest) || containsSub needle rest

/-- Index of the first occurrence of a substring (Python str.find /
str.index). -/
def indexOfSub (needle : Str) : Str → Option Nat
  | [] => if needle.isEmpty then some 0 else none
  | c :: rest =>
    if needle.isPrefixOf (c :: rest) then some 0
    else (indexOfSub needle rest).map (· + 1)

/-- Index of the last occurrence of a substring (Python str.rindex /
str.rfind), for a nonempty needle. -/
def lastIndexOfSub (needle : Str) (s : Str) : Option Nat :=
  match s with
  | [] => none
  | c :: rest =>
    match lastIndexOfSub needle rest with
    | some i => some (i + 1)
    | none => if needle.isPrefixOf (c :: rest) then some 0 else none

/-- Python str.split(sep) for a nonempty separator, fuel-driven. -/
def splitOnSubF (sep : Str) : Nat → Str → List Str
  | 0, s => [s]
  | fuel + 1, s =>
    match indexOfSub sep s with
    | none => [s]
    | some i => s.take i :: splitOnSubF sep fuel (s.drop (i + sep.length))

/-- Python str.split(sep). -/
def splitOnSub (sep s : Str) : List Str :=
  splitOnSubF sep (s.length + 1) s

/-- Python str.split(sep, 1): split at the first occurrence only. -/
def splitFirst (sep s : Str) : Option (Str × Str) :=
  (indexOfSub sep s).map fun i => (s.take i, s.drop (i + sep.length))

/-- Natural number denoted by a run of decimal digit characters. -/
def digitsVal (ds : Str) : Nat :=
  ds.foldl (fun a c => 10 * a + (c.toNat - 48)) 0

/-- Decimal rendering of a natural number (Python str of an int),
fuel-driven on the number of digits. -/
def natToCharsF : Nat → Nat → Str
  | 0, _ => []
  | fuel + 1, n =>
    if n < 10 then [Char.ofNat (48 + n)]
    else natToCharsF fuel (n / 10) ++ [Char.ofNat (48 + n % 10)]

/-- Decimal rendering of a natural number. -/
def natToChars (n : Nat) : Str := natToCharsF (n + 1) n

/-- Decimal rendering of an integer (Python str of an int). -/
def intToChars (n : Int) : Str :=
  if n < 0 then '-' :: natToChars n.natAbs else natToChars n.natAbs

/-- Exact model of the Python float values this code computes: an
integer numerator over a positive natural denominator.  Representations
are not normalized; Fr.val gives the denoted rational. -/
structure Fr where
  num : Int
  den : ℕ+
  deriving DecidableEq, Repr

/-- The rational number denoted by a fraction. -/
def Fr.val (x : Fr) : ℚ := (x.num : ℚ) / ((x.den : ℕ) : ℚ)

/-- Fraction from an integer. -/
def Fr.ofInt (n : Int) : Fr := ⟨n, 1⟩

/-- The fraction zero (Python 0.0). -/
def frZero : Fr := ⟨0, 1⟩

/-- Addition of fractions (no normalization). -/
def Fr.add (x y : Fr) : Fr := ⟨x.num * (y.den : ℕ) + y.num * (x.den : ℕ), x.den * y.den⟩

/-- Multiplication of fractions (no normalization). -/
def Fr.mul (x y : Fr) : Fr := ⟨x.num * y.num, x.den * y.den⟩

/-- Negation of a fraction. -/
def Fr.neg (x : Fr) : Fr := ⟨-x.num, x.den⟩

/-- Subtraction of fractions. -/
def Fr.sub (x y : Fr) : Fr := x.add y.neg

/-- Multiplicative inverse; none models Python ZeroDivisionError. -/
def Fr.inv (x : Fr) : Option Fr :=
  if h : x.num.natAbs = 0 then none
  else
    some ⟨(if x.num < 0 then -((x.den : ℕ) : Int) else ((x.den : ℕ) : Int)),
      ⟨x.num.natAbs, Nat.pos_of_ne_zero h⟩⟩

/-- Division of fractions; none models Python ZeroDivisionError. -/
def Fr.div (x y : Fr) : Option Fr := (y.inv).map fun z => x.mul z

/-- Value comparison of fractions (the Python float comparison). -/
def Fr.leB (x y : Fr) : Bool :=
  decide (x.num * ((y.den : ℕ) : Int) ≤ y.num * ((x.den : ℕ) : Int))

/-- Strict value comparison of fractions. -/
def Fr.ltB (x y : Fr) : Bool :=
  decide (x.num * ((y.den : ℕ) : Int) < y.num * ((x.den : ℕ) : Int))

/-- Value equality of fractions. -/
def Fr.eqB (x y : Fr) : Bool :=
  decide (x.num * ((y.den : ℕ) : Int) = y.num * ((x.den : ℕ) : Int))

/-- Python max of two floats (returns the first argument when the two
compare equal). -/
def Fr.max2 (x y : Fr) : Fr := if y.leB x then x else y

/-- Positive power of ten as a positive natural. -/
def tenPowP : Nat → ℕ+
  | 0 => 1
  | k + 1 => 10 * tenPowP k

theorem Fr.val_ofInt (n : Int) : (Fr.ofInt n).val = (n : ℚ) := by
  simp [Fr.ofInt, Fr.val]

theorem Fr.val_add (x y : Fr) : (x.add y).val = x.val + y.val := by
  have hx : ((x.den : ℕ) : ℚ) ≠ 0 := by
    exact_mod_cast (Nat.cast_ne_zero (R := ℚ)).mpr x.den.ne_zero
  have hy : ((y.den : ℕ) : ℚ) ≠ 0 := by
    exact_mod_cast (Nat.cast_ne_zero (R := ℚ)).mpr y.den.ne_zero
  simp only [Fr.add, Fr.val]
  push_cast
  field_simp

theorem Fr.val_mul (x y : Fr) : (x.mul y).val = x.val * y.val := by
  simp only [Fr.mul, Fr.val]
  push_cast
  rw [div_mul_div_comm]

theorem Fr.val_neg (x : Fr) : (x.neg).val = -x.val := by
  simp [Fr.neg, Fr.val, neg_div]

theorem Fr.val_zero : frZero.val = 0 := by
  simp [frZero, Fr.val]

theorem Fr.leB_iff (x y : Fr) : x.leB y = true ↔ x.val ≤ y.val := by
  have hx : (0 : ℚ) < ((x.den : ℕ) : ℚ) := by exact_mod_cast x.den.pos
  have hy : (0 : ℚ) < ((y.den : ℕ) : ℚ) := by exact_mod_cast y.den.pos
  simp only [Fr.leB, decide_eq_true_eq, Fr.val]
  rw [div_le_div_iff hx hy]
  constructor
  · intro h; exact_mod_cast h
  · intro h; exact_mod_cast h

theorem Fr.val_max2 (x y : Fr) : (x.max2 y).val = max x.val y.val := by
  unfold Fr.max2
  by_cases h : y.leB x = true
  · rw [if_pos h]
    rw [Fr.leB_iff] at h
    exact (max_eq_left h).symm
  · rw [if_neg h]
    have hlt : ¬ (y.val ≤ x.val) := fun hc => h ((Fr.leB_iff y x).mpr hc)
    exact (max_eq_right (le_of_lt (lt_of_not_le hlt))).symm

/-!
Statement tree builder (psi_lang.PsiScriptParser._gather_statements).
Source lines are stripped of line comments, tokenized on the three
control characters, and grouped into a nested statement tree.
-/

/-- One parsed clause: its raw text and its block children
(psi_lang._Statement). -/
inductive Stmt where
  | mk (text : Str) (children : List Stmt)

/-- Raw text of a statement. -/
def Stmt.text : Stmt → Str
  | .mk t _ => t

/-- Children of a statement. -/
def Stmt.children : Stmt → List Stmt
  | .mk _ cs => cs

/-- Tokenize the comment-stripped text of one line, carrying the
current clause buffer (the inner loop of _gather_statements). -/
def tokenizeChars : Str → Str → List Str
  | [], buf => if (pyStrip buf).isEmpty then [] else [pyStrip buf]
  | c :: rest, buf =>
    if c == ';' || c == obrC || c == cbrC then
      (if (pyStrip buf).isEmpty then [] else [pyStrip buf]) ++ [c] :: tokenizeChars rest []
    else tokenizeChars rest (buf ++ [c])

/-- Tokenize one source line: drop the line comment, strip, then emit
clause and control-character tokens. -/
def tokenizeLine (line : Str) : List Str :=
  let wc := pyStrip (match splitFirst ['/', '/'] line with
    | some (a, _) => a
    | none => line)
  if wc.isEmpty then [] else tokenizeChars wc []

/-- All tokens of a source file (the first loop of _gather_statements). -/
def gatherTokens (lines : List Str) : List Str :=
  (lines.map tokenizeLine).join

/-- The recursive parse_block of _gather_statements, fuel-driven: a
clause followed by an opening brace takes the recursively parsed block
as children; a stray semicolon is skipped; a closing brace ends the
current block, returning the remaining tokens. -/
def parseBlockF : Nat → List Str → List Stmt × List Str
  | 0, toks => ([], toks)
  | fuel + 1, toks =>
    match toks with
    | [] => ([], [])
    | tok :: rest =>
      if tok = [';'] then parseBlockF fuel rest
      else if tok = [cbrC] then ([], rest)
      else
        let pr :=
          match rest with
          | nx :: rest1 => if nx = [obrC] then parseBlockF fuel rest1 else ([], nx :: rest1)
          | [] => ([], [])
        let rest3 :=
          match pr.2 with
          | nx :: r2 => if nx = [';'] then r2 else nx :: r2
          | [] => []
        let tl := parseBlockF fuel rest3
        (Stmt.mk tok pr.1 :: tl.1, tl.2)

/-- Full statement-tree construction from source lines
(_gather_statements). -/
def gatherStatements (lines : List Str) : List Stmt :=
  let toks := gatherTokens lines
  (parseBlockF (toks.length + 1) toks).1

/-!
Duration parsing (qasm_compiler.PulseScheduler._parse_duration and
._split_number_unit): a leading signed decimal/exponential number, then
optional whitespace, then an optional alphabetic unit suffix.
-/

/-- Optional leading sign; true means negative. -/
def parseSign : Str → Bool × Str
  | [] => (false, [])
  | c :: r =>
    if c == '-' then (true, r)
    else if c == '+' then (false, r)
    else (false, c :: r)

/-- Optional exponent part of the number regex; the character e is
consumed only when at least one digit follows the optional sign. -/
def parseExponent (cs : Str) : Option Int × Str :=
  match cs with
  | [] => (none, [])
  | c :: r =>
    if c == 'e' then
      let sg := parseSign r
      let sp := (sg.2.takeWhile isDigitC, sg.2.dropWhile isDigitC)
      if sp.1.isEmpty then (none, c :: r)
      else (some (if sg.1 then -(digitsVal sp.1 : Int) else (digitsVal sp.1 : Int)), sp.2)
    else (none, c :: r)

/-- Leading number of the duration regex
([-+]?\d*\.?\d+(?:e[-+]?\d+)?): optional sign, digits, an optional
fractional part (the dot is consumed only when at least one digit
follows), an optional exponent.  Returns the exact value and the rest
of the string, or none when the regex does not match. -/
def parseNumberTok (cs : Str) : Option (Fr × Str) :=
  let sg := parseSign cs
  let ip := (sg.2.takeWhile isDigitC, sg.2.dropWhile isDigitC)
  let fp : Str × Str :=
    match ip.2 with
    | [] => ([], [])
    | c :: r =>
      if c == '.' then
        let ds := (r.takeWhile isDigitC, r.dropWhile isDigitC)
        if ds.1.isEmpty then ([], c :: r) else (ds.1, ds.2)
      else ([], c :: r)
  if ip.1.isEmpty && fp.1.isEmpty then none
  else
    let base : Fr :=
      ⟨(digitsVal ip.1 * 10 ^ fp.1.length + digitsVal fp.1 : Nat), tenPowP fp.1.length⟩
    let ex := parseExponent fp.2
    let scaled :=
      match ex.1 with
      | none => base
      | some e =>
        if 0 ≤ e then base.mul ⟨(10 : Int) ^ e.toNat, 1⟩ else base.mul ⟨1, tenPowP e.natAbs⟩
    some (if sg.1 then scaled.neg else scaled, ex.2)

/-- The scheduler's _split_number_unit: strip the text, match the
number regex (no match yields value 0 and unit ns), then skip
whitespace and take the alphabetic unit suffix, defaulting to ns,
lower-cased. -/
def splitNumberUnit (text : Str) : Fr × Str :=
  let cleaned := pyStrip text
  match parseNumberTok cleaned with
  | none => (frZero, ['n', 's'])
  | some (v, rest) =>
    let rest2 := rest.dropWhile isPyWs
    let letters := rest2.takeWhile isAlphaC
    (v, lowerS (if letters.isEmpty then ['n', 's'] else letters))

/-- The unit multiplier table of _parse_duration, relative to
nanoseconds; unrecognized units fall back to 1. -/
def unitFactor (u : Str) : Fr :=
  if u = ['s'] then ⟨1000000000, 1⟩
  else if u = ['m', 's'] then ⟨1000000, 1⟩
  else if u = ['u', 's'] then ⟨1000, 1⟩
  else if u = ['n', 's'] then ⟨1, 1⟩
  else if u = ['p', 's'] then ⟨1, 1000⟩
  else if u = ['f', 's'] then ⟨1, 1000000⟩
  else if u = ['d', 't'] then ⟨1, 1⟩
  else ⟨1, 1⟩

/-- The scheduler's _parse_duration: absent or empty text is 0; else
the parsed value times the unit factor. -/
def parseDuration (text : Option Str) : Fr :=
  match text with
  | none => frZero
  | some t =>
    if t.isEmpty then frZero
    else
      let vu := splitNumberUnit t
      vu.1.mul (unitFactor vu.2)

example : parseDuration (some "20ns".data) = ⟨20, 1⟩ := by decide
example : parseDuration (some "5us".data) = ⟨5000, 1⟩ := by decide
example : parseDuration (some "1.5ms".data) = ⟨15000000, 10⟩ := by decide
example : parseDuration (some "3dt".data) = ⟨3, 1⟩ := by decide
example : parseDuration (some "abc".data) = ⟨0, 1⟩ := by decide
example : parseDuration (some "-5ns".data) = ⟨-5, 1⟩ := by decide
example : parseDuration (some "2ps".data) = ⟨2, 1000⟩ := by decide
example : parseDuration (some "2e3US".data) = ⟨2000000, 1⟩ := by decide

/-!
Angle expressions (psi_lang.eval_angle / _safe_eval_angle).  The Python
code evaluates the angle text with the host eval over the safe locals
PI, pi and tau.  Angle values are modelled as pairs (a, b) denoting
a + b*pi; the evaluator below models eval restricted to the
constant-folding subset named by the spec (numbers, the three named
constants, +, -, *, /, parentheses); any other input, and any division
by zero, yields none, which models the exception eval_angle lets
escape.
-/

/-- An angle value a + b*pi, with both coefficients exact fractions. -/
abbrev Angle := Fr × Fr

/-- The angle zero (the Python float 0.0). -/
def angleZero : Angle := (frZero, frZero)

/-- Angle addition. -/
def aAdd (x y : Angle) : Angle := (x.1.add y.1, x.2.add y.2)

/-- Angle negation. -/
def aNeg (x : Angle) : Angle := (x.1.neg, x.2.neg)

/-- Angle subtraction. -/
def aSub (x y : Angle) : Angle := aAdd x (aNeg y)

/-- Angle multiplication; none when both factors carry pi (outside the
modelled subset). -/
def aMul (x y : Angle) : Option Angle :=
  if x.2.num = 0 then some (x.1.mul y.1, x.1.mul y.2)
  else if y.2.num = 0 then some (x.1.mul y.1, x.2.mul y.1)
  else none

/-- Angle division; none on a pi-carrying or zero divisor. -/
def aDiv (x y : Angle) : Option Angle :=
  if y.2.num = 0 then do
    let a ← x.1.div y.1
    let b ← x.2.div y.1
    pure (a, b)
  else none

/-- Skip whitespace in an expression. -/
def skipWs (cs : Str) : Str := cs.dropWhile isPyWs

/-- Fueled recursive-descent evaluator.  Mode 0 parses a sum, mode 1 a
product, mode 2 a factor; modes 3 and 4 are the corresponding
left-associated continuation loops carrying the accumulated value. -/
def evalA : Nat → Nat → Angle → Str → Option (Angle × Str)
  | 0, _, _, _ => none
  | fuel + 1, mode, acc, cs =>
    if mode = 0 then do
      let (t, r) ← evalA fuel 1 angleZero cs
      evalA fuel 3 t r
    else if mode = 3 then
      let cs2 := skipWs cs
      match cs2 with
      | '+' :: r => do
        let (t, r2) ← evalA fuel 1 angleZero r
        evalA fuel 3 (aAdd acc t) r2
      | '-' :: r => do
        let (t, r2) ← evalA fuel 1 angleZero r
        evalA fuel 3 (aSub acc t) r2
      | _ => some (acc, cs2)
    else if mode = 1 then do
      let (f, r) ← evalA fuel 2 angleZero cs
      evalA fuel 4 f r
    else if mode = 4 then
      let cs2 := skipWs cs
      match cs2 with
      | '*' :: r => do
        let (f, r2) ← evalA fuel 2 angleZero r
        let m ← aMul acc f
        evalA fuel 4 m r2
      | '/' :: r => do
        let (f, r2) ← evalA fuel 2 angleZero r
        let m ← aDiv acc f
        evalA fuel 4 m r2
      | _ => some (acc, cs2)
    else
      let cs2 := skipWs cs
      match cs2 with
      | '(' :: r => do
        let (x, r2) ← evalA fuel 0 angleZero r
        match skipWs r2 with
        | ')' :: r3 => some (x, r3)
        | _ => none
      | '-' :: r => do
        let (x, r2) ← evalA fuel 2 angleZero r
        some (aNeg x, r2)
      | '+' :: r => evalA fuel 2 angleZero r
      | c :: _ =>
        if isDigitC c || c == '.' then
          (parseNumberTok cs2).map fun vr => ((vr.1, frZero), vr.2)
        else
          let w := cs2.takeWhile isWordC
          if w = "PI".data || w = "pi".data then some ((frZero, ⟨1, 1⟩), cs2.drop w.length)
          else if w = "tau".data then some ((frZero, ⟨2, 1⟩), cs2.drop w.length)
          else none
      | [] => none

/-- Model of psi_lang.eval_angle: evaluate the whole text; none models
the exception the Python code lets escape on malformed input. -/
def evalAngle (text : Str) : Option Angle := do
  let (x, r) ← evalA (4 * text.length + 8) 0 angleZero text
  if (skipWs r).isEmpty then some x else none

/-- psi_lang._safe_eval_angle: the same evaluation, with every failure
silently replaced by 0.0. -/
def safeEvalAngle (text : Str) : Angle := (evalAngle text).getD angleZero

example : evalAngle "PI/2".data = some (⟨0, 2⟩, ⟨1, 2⟩) := by decide
example : evalAngle "PI/4".data = some (⟨0, 4⟩, ⟨1, 4⟩) := by decide
example : evalAngle "0".data = some angleZero := by decide
example : evalAngle "oops".data = none := by decide
example : evalAngle "1/0".data = none := by decide
example : safeEvalAngle "oops".data = angleZero := by decide

/-!
Module-level parsing helpers of psi_lang: _split_call, _extract_args,
_parse_key_values, _split_args, _parse_targets, _parse_target_ref, and
the Python int() conversion.
-/

/-- Python int(str): optional sign and a nonempty digit run after
stripping whitespace; none models ValueError. -/
def pyInt (s : Str) : Option Int :=
  let t := pyStrip s
  let sg := parseSign t
  if sg.2.isEmpty || !(sg.2.all isDigitC) then none
  else some (if sg.1 then -(digitsVal sg.2 : Int) else (digitsVal sg.2 : Int))

/-- psi_lang._split_call: the receiver text before the method token
(stripped), and the text between the first parenthesis after the token
and the last closing parenthesis; none models the index/rindex
ValueError. -/
def splitCall (stmt token : Str) : Option (Str × Str) := do
  let reg := pyStrip (match splitFirst token stmt with
    | some p => p.1
    | none => stmt)
  let tpos ← indexOfSub token stmt
  let ppos ← indexOfSub ['('] (stmt.drop tpos)
  let e ← lastIndexOfSub [')'] stmt
  pure (reg, ((stmt.drop (tpos + ppos + 1)).take (e - (tpos + ppos + 1))))

/-- psi_lang._extract_args: empty when the token or either parenthesis
is missing anywhere in the text; otherwise the text between the first
parenthesis after the token and the last closing parenthesis.  The
remaining none case models the uncaught index ValueError when every
parenthesis lies before the token. -/
def extractArgs (stmt token : Str) : Option Str :=
  if !(containsSub token stmt) || !(containsSub ['('] stmt) || !(containsSub [')'] stmt) then
    some []
  else do
    let tpos ← indexOfSub token stmt
    let ppos ← indexOfSub ['('] (stmt.drop tpos)
    let e := (lastIndexOfSub [')'] stmt).getD 0
    pure ((stmt.drop (tpos + ppos + 1)).take (e - (tpos + ppos + 1)))

/-- psi_lang._split_args: split on commas at bracket depth zero,
stripping each part and dropping empty parts. -/
def splitArgsGo : Str → Str → Nat → List Str
  | [], buf, _ => if (pyStrip buf).isEmpty then [] else [pyStrip buf]
  | c :: rest, buf, depth =>
    let depth2 :=
      if c == '(' || c == '[' then depth + 1
      else if c == ')' || c == ']' then depth - 1
      else depth
    if c == ',' && depth2 == 0 then
      (if (pyStrip buf).isEmpty then [] else [pyStrip buf]) ++ splitArgsGo rest [] depth2
    else splitArgsGo rest (buf ++ [c]) depth2

/-- psi_lang._split_args. -/
def splitArgs (s : Str) : List Str := splitArgsGo s [] 0

/-- Insert or overwrite a key in an association list, preserving the
position of an existing key (Python dict assignment). -/
def upsertKV : List (Str × Str) → Str → Str → List (Str × Str)
  | [], k, v => [(k, v)]
  | kv :: rest, k, v =>
    if kv.1 = k then (kv.1, v) :: rest else kv :: upsertKV rest k v

/-- Python dict.get. -/
def lookupKV (items : List (Str × Str)) (k : Str) : Option Str :=
  (items.find? (fun kv => kv.1 == k)).map (·.2)

/-- psi_lang._parse_key_values: split the argument text and keep the
parts containing a colon as stripped key/value pairs. -/
def parseKeyValues (args : Str) : List (Str × Str) :=
  (splitArgs args).foldl
    (fun items part =>
      match splitFirst [':'] part with
      | none => items
      | some kv => upsertKV items (pyStrip kv.1) (pyStrip kv.2))
    []

/-- A target entry: a qubit index, or the ALL sentinel string the
Python code stores in the same list. -/
inductive TargetItem where
  | all
  | num (i : Int)
  deriving DecidableEq, Repr

/-- psi_lang._parse_targets; none models the int() ValueError. -/
def parseTargets (value : Str) : Option (List TargetItem) :=
  let v := pyStrip value
  if upperS v = "ALL".data then some [TargetItem.all]
  else if ['['].isPrefixOf v && [']'].isSuffixOf v then
    (((splitOnSub [','] (pyStripChars ['[', ']'] v)).map pyStrip).filter
        (fun x => !x.isEmpty)).mapM (fun x => (pyInt x).map TargetItem.num)
  else (pyInt v).map fun n => [TargetItem.num n]

/-- Prefix match of the regex (\w+)\[(\d+)\]. -/
def matchWordIdx (v : Str) : Option (Str × Int) :=
  let w := v.takeWhile isWordC
  if w.isEmpty then none
  else
    match v.drop w.length with
    | '[' :: r =>
      let ds := r.takeWhile isDigitC
      if ds.isEmpty then none
      else
        match r.drop ds.length with
        | ']' :: _ => some (w, (digitsVal ds : Int))
        | _ => none
    | _ => none

/-- psi_lang._parse_target_ref: a reg[i] reference, a bare register
name, or nothing. -/
def parseTargetRef (value : Str) : Option Str × Option Int :=
  let v := pyStrip value
  match matchWordIdx v with
  | some wi => (some wi.1, some wi.2)
  | none => if v.isEmpty then (none, none) else (some v, none)

/-- Python `a or b` over optional strings (None and the empty string
are falsy). -/
def pyOr (a b : Option Str) : Option Str :=
  match a with
  | some s => if s.isEmpty then b else some s
  | none => b

/-- Python `a or d` with a string fallback. -/
def orS (a : Option Str) (d : Str) : Str :=
  match a with
  | some s => if s.isEmpty then d else s
  | none => d

example : splitCall "q.Phase(angle: PI, where: q[0])".data ".Phase".data =
    some ("q".data, "angle: PI, where: q[0]".data) := by decide
example : parseKeyValues "axis: X, angle: PI/2, duration: 10ns".data =
    [("axis".data, "X".data), ("angle".data, "PI/2".data),
      ("duration".data, "10ns".data)] := by decide
example : parseTargets "[0, 2]".data = some [.num 0, .num 2] := by decide
example : parseTargetRef "q[1]".data = (some "q".data, some 1) := by decide

/-!
Operation records (psi_lang.PsiOperation) and the per-clause resolver
(psi_lang.PsiScriptParser._parse_operation).  The resolver returns an
optional operation and a context update for the clause subtree; the
outer Option models an uncaught Python exception (eval_angle, int(),
or a missing parenthesis).
-/

/-- psi_lang.PsiOperation. -/
structure PsiOperation where
  kind : Str
  register : Str
  targets : List TargetItem := []
  angle : Angle := angleZero
  predicate : Option Str := none
  whenG : Option Str := none
  axis : Option Str := none
  classicalTarget : Option Str := none
  measureAll : Bool := false
  raw : Str := []
  scope : Str := "logic".data
  duration : Option Str := none
  shape : Option Str := none
  waveform : Option Str := none
  channel : Option Str := none
  frequency : Option Str := none
  kernel : Option Str := none
  metadata : List (Str × Str) := []
  deriving DecidableEq, Repr

/-- The context threaded down the statement walk: current scope, the
ambient default register, and the ambient analog target binding. -/
structure Ctx where
  scope : Str
  defaultReg : Option Str
  analogCtx : Option (Str × Option Int)
  deriving DecidableEq, Repr

/-- A context override returned by one clause for its own subtree; an
absent field keeps the parent value (ctx_update.get(key, current)). -/
structure CtxUpdate where
  scope : Option Str := none
  defaultReg : Option Str := none
  analogCtx : Option (Str × Option Int) := none
  deriving DecidableEq, Repr

/-- Apply a context override to the ambient context. -/
def applyUpd (ctx : Ctx) (u : CtxUpdate) : Ctx :=
  ⟨u.scope.getD ctx.scope,
    match u.defaultReg with
    | some r => some r
    | none => ctx.defaultReg,
    match u.analogCtx with
    | some a => some a
    | none => ctx.analogCtx⟩

/-- The optional binding group let\s+(\w+)\s*=\s*, returning the bound
name and the rest of the text. -/
def matchLetBinding (cs : Str) : Option (Str × Str) :=
  match cs with
  | 'l' :: 'e' :: 't' :: r =>
    let ws1 := r.takeWhile isPyWs
    if ws1.isEmpty then none
    else
      let r1 := r.drop ws1.length
      let w := r1.takeWhile isWordC
      if w.isEmpty then none
      else
        match (r1.drop w.length).dropWhile isPyWs with
        | '=' :: r3 => some (w, r3.dropWhile isPyWs)
        | _ => none
  | _ => none

/-- The core of the indexed measurement regex,
Measure\(\s*(\w+)\[(\d+)\]\s*\). -/
def matchMeasureCore (cs : Str) : Option (Str × Int) :=
  if "Measure(".data.isPrefixOf cs then
    let r1 := (cs.drop 8).dropWhile isPyWs
    let w := r1.takeWhile isWordC
    if w.isEmpty then none
    else
      match r1.drop w.length with
      | '[' :: r2 =>
        let ds := r2.takeWhile isDigitC
        if ds.isEmpty then none
        else
          match r2.drop ds.length with
          | ']' :: r3 =>
            match r3.dropWhile isPyWs with
            | ')' :: _ => some (w, (digitsVal ds : Int))
            | _ => none
          | _ => none
      | _ => none
  else none

/-- Prefix match of
(?:let\s+(\w+)\s*=\s*)?Measure\(\s*(\w+)\[(\d+)\]\s*\). -/
def matchMeasureIndexed (stmt : Str) : Option (Option Str × Str × Int) :=
  match matchLetBinding stmt with
  | some cr =>
    match matchMeasureCore cr.2 with
    | some ri => some (some cr.1, ri.1, ri.2)
    | none => (matchMeasureCore stmt).map fun ri => (none, ri.1, ri.2)
  | none => (matchMeasureCore stmt).map fun ri => (none, ri.1, ri.2)

/-- The core of the register-wide measurement regex,
(\w+)\.Measure\(\s*\). -/
def matchMethodCore (cs : Str) : Option Str :=
  let w := cs.takeWhile isWordC
  if w.isEmpty then none
  else
    let r := cs.drop w.length
    if ".Measure(".data.isPrefixOf r then
      match (r.drop 9).dropWhile isPyWs with
      | ')' :: _ => some w
      | _ => none
    else none

/-- Prefix match of (?:let\s+(\w+)\s*=\s*)?(\w+)\.Measure\(\s*\). -/
def matchMeasureMethod (stmt : Str) : Option (Option Str × Str) :=
  match matchLetBinding stmt with
  | some cr =>
    match matchMethodCore cr.2 with
    | some reg => some (some cr.1, reg)
    | none => (matchMethodCore stmt).map fun reg => (none, reg)
  | none => (matchMethodCore stmt).map fun reg => (none, reg)

/-- psi_lang.PsiScriptParser._parse_measurement. -/
def parseMeasurement (stmt : Str) : Option PsiOperation :=
  match matchMeasureIndexed stmt with
  | some cri =>
    some
      { kind := "measure".data, register := cri.2.1,
        targets := [TargetItem.num cri.2.2], classicalTarget := cri.1, raw := stmt }
  | none =>
    match matchMeasureMethod stmt with
    | some cr =>
      some
        { kind := "measure".data, register := cr.2, measureAll := true,
          classicalTarget := cr.1, raw := stmt }
    | none => none

/-- Which branch of _parse_operation a clause text reaches, following
the source order of the containment, measurement and startswith
checks. -/
inductive DTag where
  | superpose | phase | flip | reflectT | measureT | analogT | alignT | branchT
  | rotate | waitT | shiftphase | setfreq | play | acquire | unknown
  deriving DecidableEq, Repr

/-- The dispatch of _parse_operation (conditions only; branch bodies
are separate). -/
def dispatchTag (stmt : Str) : DTag :=
  if containsSub ".Superpose".data stmt then .superpose
  else if containsSub ".Phase".data stmt then .phase
  else if containsSub ".Flip".data stmt then .flip
  else if containsSub ".Reflect".data stmt then .reflectT
  else if containsSub "Measure".data stmt && (parseMeasurement stmt).isSome then .measureT
  else if "Analog".data.isPrefixOf stmt then .analogT
  else if "Align".data.isPrefixOf stmt then .alignT
  else if "branch".data.isPrefixOf stmt then .branchT
  else if "Rotate".data.isPrefixOf stmt then .rotate
  else if "Wait".data.isPrefixOf stmt then .waitT
  else if "ShiftPhase".data.isPrefixOf stmt then .shiftphase
  else if "SetFreq".data.isPrefixOf stmt then .setfreq
  else if "Play".data.isPrefixOf stmt then .play
  else if "Acquire".data.isPrefixOf stmt then .acquire
  else .unknown

/-- The targets list for an optional index. -/
def optTarget : Option Int → List TargetItem
  | some n => [.num n]
  | none => []

/-- The Superpose branch of _parse_operation. -/
def parseSuperpose (stmt scope : Str) : Option (Option PsiOperation × CtxUpdate) := do
  let ra ← splitCall stmt ".Superpose".data
  let params := parseKeyValues ra.2
  let targets ← parseTargets ((lookupKV params "targets".data).getD "ALL".data)
  pure (some
    { kind := "superpose".data, register := ra.1, targets := targets,
      raw := stmt, scope := scope }, {})

/-- The Phase branch of _parse_operation: eval_angle is called without
any guard, so a failing evaluation is an uncaught exception. -/
def parsePhase (stmt scope : Str) : Option (Option PsiOperation × CtxUpdate) := do
  let ra ← splitCall stmt ".Phase".data
  let params := parseKeyValues ra.2
  let angle ← evalAngle ((lookupKV params "angle".data).getD "0".data)
  pure (some
    { kind := "phase".data, register := ra.1, angle := angle,
      predicate := lookupKV params "where".data, whenG := lookupKV params "when".data,
      raw := stmt, scope := scope }, {})

/-- The Flip branch of _parse_operation. -/
def parseFlip (stmt scope : Str) : Option (Option PsiOperation × CtxUpdate) := do
  let ra ← splitCall stmt ".Flip".data
  let params := parseKeyValues ra.2
  let target ← pyInt ((lookupKV params "target".data).getD "0".data)
  pure (some
    { kind := "flip".data, register := ra.1, targets := [TargetItem.num target],
      predicate := lookupKV params "where".data, whenG := lookupKV params "when".data,
      raw := stmt, scope := scope }, {})

/-- The Reflect branch of _parse_operation. -/
def parseReflect (stmt scope : Str) : Option (Option PsiOperation × CtxUpdate) := do
  let ra ← splitCall stmt ".Reflect".data
  let params := parseKeyValues ra.2
  pure (some
    { kind := "reflect".data, register := ra.1,
      axis := some ((lookupKV params "axis".data).getD "Axis.MEAN".data),
      raw := stmt, scope := scope }, {})

/-- The Analog branch of _parse_operation: overrides scope, default
register and the analog context for the subtree. -/
def parseAnalog (stmt : Str) (dflt : Option Str) :
    Option (Option PsiOperation × CtxUpdate) := do
  let args ← extractArgs stmt "Analog".data
  let params := parseKeyValues args
  let rt := parseTargetRef ((lookupKV params "target".data).getD [])
  let reg := orS rt.1 (orS dflt [])
  pure (some
    { kind := "analog".data, register := reg, targets := optTarget rt.2,
      raw := stmt, scope := "analog".data, metadata := params },
    { scope := some "analog".data, analogCtx := some (reg, rt.2), defaultReg := some reg })

/-- The Align branch of _parse_operation. -/
def parseAlign (stmt : Str) (dflt : Option Str) :
    Option (Option PsiOperation × CtxUpdate) :=
  some (some
    { kind := "align".data, register := orS dflt [], raw := stmt,
      scope := "align".data },
    { scope := some "align".data })

/-- The branch clause of _parse_operation: the label is the raw text
after the first space (or the word branch when there is none), and the
default register is overridden for the subtree. -/
def parseBranch (stmt scope : Str) (dflt : Option Str) :
    Option (Option PsiOperation × CtxUpdate) :=
  let label :=
    match splitFirst [' '] stmt with
    | some p => pyStrip p.2
    | none => "branch".data
  let rt := parseTargetRef label
  let reg := orS rt.1 (orS dflt [])
  some (some
    { kind := "branch".data, register := reg, targets := optTarget rt.2,
      raw := stmt, scope := scope, metadata := [("label".data, label)] },
    { defaultReg := some reg })

/-- The Rotate branch of _parse_operation: a malformed angle is
silently replaced by 0.0 via _safe_eval_angle; an omitted target
inherits the analog context. -/
def parseRotate (stmt scope : Str) (actx : Option (Str × Option Int))
    (dflt : Option Str) : Option (Option PsiOperation × CtxUpdate) := do
  let args ← extractArgs stmt "Rotate".data
  let params := parseKeyValues args
  let rt := parseTargetRef ((lookupKV params "target".data).getD [])
  let tidx :=
    match rt.2 with
    | some i => some i
    | none =>
      match actx with
      | some a => a.2
      | none => none
  let reg := orS rt.1 (orS (actx.map Prod.fst) (orS dflt []))
  pure (some
    { kind := "rotate".data, register := reg, targets := optTarget tidx,
      axis := lookupKV params "axis".data,
      angle := safeEvalAngle ((lookupKV params "angle".data).getD "0".data),
      duration := lookupKV params "duration".data, shape := lookupKV params "shape".data,
      raw := stmt, scope := scope, metadata := params }, {})

/-- The Wait branch of _parse_operation. -/
def parseWait (stmt scope : Str) (actx : Option (Str × Option Int))
    (dflt : Option Str) : Option (Option PsiOperation × CtxUpdate) := do
  let args ← extractArgs stmt "Wait".data
  let params := parseKeyValues args
  let reg := orS (actx.map Prod.fst) (orS dflt [])
  pure (some
    { kind := "wait".data, register := reg,
      duration := some ((lookupKV params "duration".data).getD (pyStrip args)),
      targets := optTarget (actx.bind Prod.snd), raw := stmt, scope := scope,
      metadata := params }, {})

/-- The ShiftPhase branch of _parse_operation (safe angle evaluation,
defaulting to the raw argument text). -/
def parseShiftPhase (stmt scope : Str) (actx : Option (Str × Option Int))
    (dflt : Option Str) : Option (Option PsiOperation × CtxUpdate) := do
  let args ← extractArgs stmt "ShiftPhase".data
  let params := parseKeyValues args
  let reg := orS (actx.map Prod.fst) (orS dflt [])
  pure (some
    { kind := "shiftphase".data, register := reg,
      angle := safeEvalAngle ((lookupKV params "angle".data).getD args),
      targets := optTarget (actx.bind Prod.snd), raw := stmt, scope := scope,
      metadata := params }, {})

/-- The SetFreq branch of _parse_operation. -/
def parseSetFreq (stmt scope : Str) (actx : Option (Str × Option Int))
    (dflt : Option Str) : Option (Option PsiOperation × CtxUpdate) := do
  let args ← extractArgs stmt "SetFreq".data
  let params := parseKeyValues args
  let reg := orS (actx.map Prod.fst) (orS dflt [])
  pure (some
    { kind := "setfreq".data, register := reg,
      targets := optTarget (actx.bind Prod.snd),
      frequency := some ((lookupKV params "hz".data).getD (pyStrip args)),
      raw := stmt, scope := scope, metadata := params }, {})

/-- The Play branch of _parse_operation, including the positional
two-argument fallback. -/
def parsePlay (stmt scope : Str) (actx : Option (Str × Option Int))
    (dflt : Option Str) : Option (Option PsiOperation × CtxUpdate) := do
  let args ← extractArgs stmt "Play".data
  let params0 := parseKeyValues args
  let params :=
    if params0.isEmpty && containsSub [','] args then
      match splitFirst [','] args with
      | some wc => [("waveform".data, pyStrip wc.1), ("channel".data, pyStrip wc.2)]
      | none => params0
    else params0
  let reg := orS (actx.map Prod.fst) (orS dflt [])
  pure (some
    { kind := "play".data, register := reg,
      waveform := lookupKV params "waveform".data,
      channel := lookupKV params "channel".data,
      raw := stmt, scope := scope, metadata := params }, {})

/-- The Acquire branch of _parse_operation. -/
def parseAcquire (stmt scope : Str) (actx : Option (Str × Option Int))
    (dflt : Option Str) : Option (Option PsiOperation × CtxUpdate) := do
  let args ← extractArgs stmt "Acquire".data
  let params := parseKeyValues args
  let reg := orS (actx.map Prod.fst) (orS dflt [])
  pure (some
    { kind := "acquire".data, register := reg,
      duration := some ((lookupKV params "duration".data).getD (pyStrip args)),
      kernel := lookupKV params "kernel".data, raw := stmt, scope := scope,
      metadata := params }, {})

/-- psi_lang.PsiScriptParser._parse_operation: dispatch on the clause
text, resolve one operation and a context override.  The outer Option
models an uncaught Python exception escaping the parse. -/
def parseOperation (stmt : Str) (ctx : Ctx) : Option (Option PsiOperation × CtxUpdate) :=
  match dispatchTag stmt with
  | .superpose => parseSuperpose stmt ctx.scope
  | .phase => parsePhase stmt ctx.scope
  | .flip => parseFlip stmt ctx.scope
  | .reflectT => parseReflect stmt ctx.scope
  | .measureT =>
    match parseMeasurement stmt with
    | some op => some (some { op with scope := ctx.scope }, {})
    | none => some (none, {})
  | .analogT => parseAnalog stmt ctx.defaultReg
  | .alignT => parseAlign stmt ctx.defaultReg
  | .branchT => parseBranch stmt ctx.scope ctx.defaultReg
  | .rotate => parseRotate stmt ctx.scope ctx.analogCtx ctx.defaultReg
  | .waitT => parseWait stmt ctx.scope ctx.analogCtx ctx.defaultReg
  | .shiftphase => parseShiftPhase stmt ctx.scope ctx.analogCtx ctx.defaultReg
  | .setfreq => parseSetFreq stmt ctx.scope ctx.analogCtx ctx.defaultReg
  | .play => parsePlay stmt ctx.scope ctx.analogCtx ctx.defaultReg
  | .acquire => parseAcquire stmt ctx.scope ctx.analogCtx ctx.defaultReg
  | .unknown => some (none, {})

/-!
Register collection (psi_lang.PsiScriptParser._collect_registers): scan
every statement text for declarations matching
(\w+)\s*=\s*Register\((\d+)\), in document order, children after their
parent text, later declarations of the same name overwriting in place.
-/

/-- Match the register-declaration regex at the start of the text,
returning name, width and the rest after the match. -/
def matchRegDecl (cs : Str) : Option ((Str × Nat) × Str) :=
  let w := cs.takeWhile isWordC
  if w.isEmpty then none
  else
    match ((cs.drop w.length).dropWhile isPyWs) with
    | '=' :: r1 =>
      let r2 := r1.dropWhile isPyWs
      if "Register(".data.isPrefixOf r2 then
        let r3 := r2.drop 9
        let ds := r3.takeWhile isDigitC
        if ds.isEmpty then none
        else
          match r3.drop ds.length with
          | ')' :: r4 => some ((w, digitsVal ds), r4)
          | _ => none
      else none
    | _ => none

/-- re.findall of the register-declaration regex: leftmost
non-overlapping matches. -/
def findRegDecls : Nat → Str → List (Str × Nat)
  | 0, _ => []
  | _ + 1, [] => []
  | fuel + 1, c :: rest =>
    match matchRegDecl (c :: rest) with
    | some ga => ga.1 :: findRegDecls fuel ga.2
    | none => findRegDecls fuel rest

/-- Insert or overwrite a register entry, preserving the position of an
existing name (Python dict assignment). -/
def upsertReg : List (Str × Nat) → Str × Nat → List (Str × Nat)
  | [], g => [g]
  | e :: rest, g => if e.1 = g.1 then (e.1, g.2) :: rest else e :: upsertReg rest g

/-- psi_lang.PsiScriptParser._collect_registers, fuel-driven over the
statement tree. -/
def collectRegisters : Nat → List Stmt → List (Str × Nat) → List (Str × Nat)
  | 0, _, acc => acc
  | _ + 1, [], acc => acc
  | fuel + 1, s :: rest, acc =>
    let acc1 := (findRegDecls (s.text.length + 1) s.text).foldl upsertReg acc
    let acc2 := if s.children.isEmpty then acc1 else collectRegisters fuel s.children acc1
    collectRegisters fuel rest acc2

/-!
The pulse scheduler (qasm_compiler.PulseScheduler, whose body is
identical in pulse_compiler.PulseLayerCompiler): a recursive walk of
the statement tree with a running time cursor.  The walk is fuel
driven; exhausted fuel and an uncaught parse exception both yield
none, and every theorem below is conditioned on the walk returning a
result.
-/

/-- qasm_compiler.PulseEvent. -/
structure PulseEvent where
  kind : Str
  register : Str
  target : Option TargetItem
  startNs : Fr
  durationNs : Fr
  axis : Option Str := none
  angle : Option Angle := none
  shape : Option Str := none
  waveform : Option Str := none
  channel : Option Str := none
  frequency : Option Str := none
  kernel : Option Str := none
  whenG : Option Str := none
  branch : Option Str := none
  metadata : List (Str × Str) := []
  raw : Str := []
  deriving DecidableEq, Repr

/-- qasm_compiler.PULSE_KINDS. -/
def PULSE_KINDS : List Str :=
  ["rotate".data, "wait".data, "shiftphase".data, "setfreq".data,
    "play".data, "acquire".data]

/-- Whether an event is kept: no filter (or the falsy empty-string
filter), or a register match. -/
def includeEvent (filt : Option Str) (reg : Str) : Bool :=
  match filt with
  | none => true
  | some f => f.isEmpty || reg == f

/-- The duration text _lower_pulse_op parses: the operation duration
if truthy, else the metadata entry. -/
def opDurationText (op : PsiOperation) : Option Str :=
  match op.duration with
  | some d => if d.isEmpty then lookupKV op.metadata "duration".data else some d
  | none => lookupKV op.metadata "duration".data

/-- The parsed duration of a pulse operation. -/
def opDuration (op : PsiOperation) : Fr := parseDuration (opDurationText op)

/-- The event _lower_pulse_op builds at a given start time and branch
label. -/
def pulseEventOf (op : PsiOperation) (start : Fr) (lbl : Option Str) : PulseEvent :=
  { kind := op.kind, register := op.register, target := op.targets.head?,
    startNs := start, durationNs := opDuration op, axis := op.axis,
    angle := some op.angle, shape := op.shape, waveform := op.waveform,
    channel := op.channel, frequency := op.frequency, kernel := op.kernel,
    whenG := op.whenG, branch := lbl, metadata := op.metadata,
    raw := op.raw }

/-- qasm_compiler.PulseScheduler._lower_pulse_op: one event at the
current cursor (dropped when a register filter excludes it), and the
parsed duration by which the cursor advances either way. -/
def lowerPulseOp (filt : Option Str) (op : PsiOperation) (start : Fr)
    (lbl : Option Str) : List PulseEvent × Fr :=
  if includeEvent filt op.register then ([pulseEventOf op start lbl], opDuration op)
  else ([], opDuration op)

/-- Python max over a nonempty list of floats (first maximal element);
zero for the empty list, as used by _compile_align. -/
def listMaxFr : List Fr → Fr
  | [] => frZero
  | d :: rest => rest.foldl (fun cur x => if cur.ltB x then x else cur) d

/-- The label a branch statement contributes to its events:
op.metadata.get("label") when the resolved operation has a nonempty
metadata map. -/
def branchLabelOf (pu : Option PsiOperation) : Option Str :=
  match pu with
  | some op => if op.metadata.isEmpty then none else lookupKV op.metadata "label".data
  | none => none

/-- One branch of _compile_align, abstracted over the recursive block
compiler: resolve the branch clause, compute its label, and compile
its children from the given start time. -/
def branchStep (rec : List Stmt → Ctx → Fr → Option Str → Option (List PulseEvent × Fr))
    (ctx : Ctx) (t : Fr) (b : Stmt) : Option (List PulseEvent × Fr) := do
  let pu ← parseOperation b.text ctx
  rec b.children (applyUpd ctx pu.2) t (branchLabelOf pu.1)

/-- The branch loop of _compile_align, abstracted over the recursive
block compiler: each branch is resolved, given its label, and compiled
from the same start time; the per-branch event lists and durations are
returned in order. -/
def alignGo (rec : List Stmt → Ctx → Fr → Option Str → Option (List PulseEvent × Fr)) :
    List Stmt → Ctx → Fr → Option (List (List PulseEvent × Fr))
  | [], _, _ => some []
  | b :: bs, ctx, t => do
    let r ← branchStep rec ctx t b
    let rs ← alignGo rec bs ctx t
    pure (r :: rs)

/-- qasm_compiler.PulseScheduler._compile_block (with _compile_align
inlined through alignGo): walk the statements in order with a running
cursor; a pulse clause emits at the cursor and advances it, an Analog
clause recurses sequentially, an Align clause compiles every branch
from the same cursor and advances by the maximum branch duration, any
other clause with children recurses sequentially.  Returns the events
and the total cursor advance. -/
def compileBlockF : Nat → Option Str → List Stmt → Ctx → Fr → Option Str →
    Option (List PulseEvent × Fr)
  | 0, _, _, _, _, _ => none
  | fuel + 1, filt, stmts, ctx, t, lbl =>
    match stmts with
    | [] => some ([], frZero)
    | s :: rest => do
      let pu ← parseOperation s.text ctx
      let ctx2 := applyUpd ctx pu.2
      let hd ←
        (match pu.1 with
        | some op =>
          if PULSE_KINDS.contains op.kind then some (lowerPulseOp filt op t lbl)
          else if op.kind = "analog".data then compileBlockF fuel filt s.children ctx2 t lbl
          else if op.kind = "align".data then do
            let rs ← alignGo (compileBlockF fuel filt) s.children ctx2 t
            pure ((rs.map Prod.fst).join, listMaxFr (rs.map Prod.snd))
          else if s.children.isEmpty then some ([], frZero)
          else compileBlockF fuel filt s.children ctx2 t lbl
        | none =>
          if s.children.isEmpty then some ([], frZero)
          else compileBlockF fuel filt s.children ctx2 t lbl)
      let tl ← compileBlockF fuel filt rest ctx (t.add hd.2) lbl
      pure (hd.1 ++ tl.1, hd.2.add tl.2)

/-- Sort key ordering of build(): (start, register, target or -1),
with Python truthiness sending both target 0 and an absent target to
-1. -/
def targetKey : Option TargetItem → Int
  | some (.num k) => if k = 0 then -1 else k
  | some .all => -1
  | none => -1

/-- Code-point lexicographic comparison of strings (Python str less
than). -/
def strLtB : Str → Str → Bool
  | [], [] => false
  | [], _ :: _ => true
  | _ :: _, [] => false
  | a :: xs, b :: ys =>
    if a.toNat < b.toNat then true
    else if b.toNat < a.toNat then false
    else strLtB xs ys

/-- Strict comparison of the build() sort key. -/
def keyLt (a b : PulseEvent) : Bool :=
  if a.startNs.ltB b.startNs then true
  else if b.startNs.ltB a.startNs then false
  else if strLtB a.register b.register then true
  else if strLtB b.register a.register then false
  else decide (targetKey a.target < targetKey b.target)

/-- Stable insertion: a new event goes after every event it does not
strictly precede. -/
def insertSorted (e : PulseEvent) : List PulseEvent → List PulseEvent
  | [] => [e]
  | x :: xs => if keyLt e x then e :: x :: xs else x :: insertSorted e xs

/-- The stable sort applied by build() (Python list.sort with the
(start, register, target) key). -/
def sortEvents (evs : List PulseEvent) : List PulseEvent :=
  evs.foldl (fun acc e => insertSorted e acc) []

/-- PulseSchedule.duration_ns: zero for an empty schedule, else the
maximum of start + duration over the events. -/
def scheduleDuration (evs : List PulseEvent) : Fr :=
  listMaxFr (evs.map fun e => e.startNs.add e.durationNs)

/-- qasm_compiler.PulseScheduler.build.  build reads
getattr(self.parser, "statements", []), and PsiScriptParser.parse never
assigns a statements attribute, so the walk always starts from the
empty statement list, whatever source was parsed. -/
def buildSchedule (filt : Option Str) (defaultReg : Str) : Option (List PulseEvent) :=
  (compileBlockF 1 filt ([] : List Stmt)
      ⟨"logic".data, some defaultReg, none⟩ frZero none).map
    fun r => sortEvents r.1

/-!
Scenario A (claim C1): the one-qubit program of the specification and
of tests/test_pulse_compiler.py::test_simple_pulse_schedule.
-/

/-- The scenario A source lines. -/
def scenarioALines : List Str :=
  ["let q = Register(1);".data,
    "Analog(target: q[0]) \x7b".data,
    "Rotate(axis: X, angle: PI/2, duration: 10ns);".data,
    "Wait(duration: 5ns);".data,
    "ShiftPhase(angle: PI/4);".data,
    "Acquire(duration: 20ns, kernel: boxcar);".data,
    "\x7d".data]

/-- The scenario A statement tree. -/
def scenarioATree : List Stmt := gatherStatements scenarioALines

/-- The context PulseScheduler.build starts its walk with when the
default register is q: logic scope, no analog binding. -/
def buildCtx : Ctx := ⟨"logic".data, some "q".data, none⟩

/-- Claim C1 (code bug).  Parsing the scenario A source succeeds and
declares the one-qubit register q, and walking its statement tree with
_compile_block from cursor 0 produces exactly the schedule the claim
describes: 4 events with sorted start times 0, 10, 15, 15 and total
duration 35 ns, the derived schedule duration also being 35 ns.  But
PulseScheduler.build itself reads getattr(self.parser, "statements",
[]), and PsiScriptParser.parse never stores a statements attribute, so
build() walks the empty list and returns a schedule with 0 events
instead of the claimed 4. -/
theorem qscript_c1 :
    collectRegisters 100 scenarioATree [] = [("q".data, 1)] ∧
    buildSchedule none "q".data = some [] ∧
    (compileBlockF 100 none scenarioATree buildCtx frZero none).map
        (fun r => (r.1.length, (sortEvents r.1).map (fun e => e.startNs.val),
          r.2.val, (scheduleDuration r.1).val))
      = some (4, [0, 10, 15, 15], 35, 35) := by
  refine ⟨by decide, by decide, ?_⟩
  have h1 : (compileBlockF 100 none scenarioATree buildCtx frZero none).map
      (fun r => (r.1.length, (sortEvents r.1).map (fun e => e.startNs),
        r.2, scheduleDuration r.1))
      = some (4, [⟨0, 1⟩, ⟨10, 1⟩, ⟨15, 1⟩, ⟨15, 1⟩], ⟨35, 1⟩, ⟨35, 1⟩) := by decide
  cases hc : compileBlockF 100 none scenarioATree buildCtx frZero none with
  | none => rw [hc] at h1; simp at h1
  | some r =>
    rw [hc] at h1
    simp only [Option.map_some', Option.some.injEq, Prod.mk.injEq] at h1
    obtain ⟨hlen, hstarts, hd, hsd⟩ := h1
    simp only [Option.map_some', Option.some.injEq, Prod.mk.injEq]
    refine ⟨hlen, ?_, by rw [hd]; norm_num [Fr.val], by rw [hsd]; norm_num [Fr.val]⟩
    have : (sortEvents r.1).map (fun e => e.startNs.val)
        = ((sortEvents r.1).map (fun e => e.startNs)).map Fr.val := by
      rw [List.map_map]; rfl
    rw [this, hstarts]
    norm_num [Fr.val]

/-!
The predicate decomposer (psi_lang.parse_conjunctive_controls) and the
gate emitters of qasm_compiler.OpenQasmCompiler that the claims cover
(_emit_flip, _emit_multi_control_x, _emit_with_when).  Emitted
instructions are modelled as the exact text lines the builder would
record; classical-register bookkeeping is not observable in these
lines and is not modelled.  The register name is interpolated
literally into the two term regexes, as the Python code does for the
word-shaped register names the parser produces.
-/

/-- Prefix match of the term regex register\[(\d+)\]\s*==\s*([01])
(re.match: trailing text after the matched value is ignored). -/
def matchEqForm (register term : Str) : Option (Nat × Nat) :=
  if register.isPrefixOf term then
    match term.drop register.length with
    | '[' :: r1 =>
      let ds := r1.takeWhile isDigitC
      if ds.isEmpty then none
      else
        match r1.drop ds.length with
        | ']' :: r2 =>
          match r2.dropWhile isPyWs with
          | '=' :: '=' :: r4 =>
            match r4.dropWhile isPyWs with
            | '0' :: _ => some (digitsVal ds, 0)
            | '1' :: _ => some (digitsVal ds, 1)
            | _ => none
          | _ => none
        | _ => none
    | _ => none
  else none

/-- Full match of the bare term regex register\[(\d+)\]$ (anchored at
the end). -/
def matchSimpleForm (register term : Str) : Option Nat :=
  if register.isPrefixOf term then
    match term.drop register.length with
    | '[' :: r1 =>
      let ds := r1.takeWhile isDigitC
      if ds.isEmpty then none
      else
        match r1.drop ds.length with
        | [']'] => some (digitsVal ds)
        | _ => none
    | _ => none
  else none

/-- The skip test of the term loop: term.lower() in the set of the
strings true, 1 and the empty string. -/
def pccSkip (term : Str) : Bool :=
  lowerS term == "true".data || lowerS term == "1".data || term == ([] : Str)

/-- The term loop of parse_conjunctive_controls: skip trivially true
terms, accept an equality or bare term, reject anything else. -/
def pccGo (register : Str) : List Str → Option (List (Nat × Nat))
  | [] => some []
  | term :: rest =>
    if pccSkip term then
      pccGo register rest
    else
      match matchEqForm register term with
      | some iv => (pccGo register rest).map (iv :: ·)
      | none =>
        match matchSimpleForm register term with
        | some i => (pccGo register rest).map (fun l => (i, 1) :: l)
        | none => none

/-- psi_lang.parse_conjunctive_controls on a present predicate string:
a disjunction marker anywhere is unsupported; otherwise split on the
conjunction marker, strip each term, and run the term loop. -/
def pccStr (predicate register : Str) : Option (List (Nat × Nat)) :=
  if containsSub "||".data predicate then none
  else pccGo register ((splitOnSub "&&".data predicate).map pyStrip)

/-- psi_lang.parse_conjunctive_controls (an absent predicate is the
empty control list). -/
def parse_conjunctive_controls (predicate : Option Str) (register : Str) :
    Option (List (Nat × Nat)) :=
  match predicate with
  | none => some []
  | some p => pccStr p register

/-- Qubit reference text reg[i]. -/
def qrefS (reg : Str) (i : Int) : Str := reg ++ ['['] ++ intToChars i ++ [']']

/-- Rendering of a target entry inside a qubit reference. -/
def targetItemChars : TargetItem → Str
  | .num n => intToChars n
  | .all => "ALL".data

/-- Qubit reference text for a target entry. -/
def qrefT (reg : Str) (t : TargetItem) : Str := reg ++ ['['] ++ targetItemChars t ++ [']']

/-- An x instruction line. -/
def xLine (q : Str) : Str := "x ".data ++ q ++ [';']

/-- A cx instruction line. -/
def cxLine (c t : Str) : Str := "cx ".data ++ c ++ [','] ++ t ++ [';']

/-- A ccx instruction line. -/
def ccxLine (a b t : Str) : Str := "ccx ".data ++ a ++ [','] ++ b ++ [','] ++ t ++ [';']

/-- Python f-string rendering of an optional string (None prints as
None). -/
def optStr : Option Str → Str
  | none => "None".data
  | some s => s

/-- One of the two prefix regexes of _lower_when_condition,
(\w+)\s*==\s*1 or (\w+)\s*==\s*0, parameterized by the digit. -/
def matchNameEq (digit : Char) (e : Str) : Option Str :=
  let w := e.takeWhile isWordC
  if w.isEmpty then none
  else
    match (e.drop w.length).dropWhile isPyWs with
    | '=' :: '=' :: r =>
      match r.dropWhile isPyWs with
      | c :: _ => if c = digit then some w else none
      | [] => none
    | _ => none

/-- qasm_compiler.OpenQasmCompiler._lower_when_condition. -/
def lowerWhenCondition (expr : Str) : Option Str :=
  let e := pyStrip expr
  match matchNameEq '1' e with
  | some name => some (name ++ "==1".data)
  | none =>
    match matchNameEq '0' e with
    | some name => some (name ++ "==0".data)
    | none => none

/-- qasm_compiler.OpenQasmCompiler._emit_with_when: no guard (or the
falsy empty guard) emits the lines unchanged; an unrecognized guard
emits a comment and then the unwrapped lines; a recognized guard wraps
every line in a classical conditional. -/
def emitWithWhen (gateLines : List Str) (w : Option Str) : List Str :=
  match w with
  | none => gateLines
  | some ws =>
    if ws.isEmpty then gateLines
    else
      match lowerWhenCondition ws with
      | none =>
        ("// TODO: when guard ".data ++ [squoteC] ++ ws ++ [squoteC]
          ++ " not lowered".data) :: gateLines
      | some cond => gateLines.map fun l => "if (".data ++ cond ++ ") ".data ++ l

/-- qasm_compiler.OpenQasmCompiler._emit_flip.  The outer Option
models the IndexError on an operation without targets. -/
def emitFlip (op : PsiOperation) : Option (List Str) := do
  let controls := pccStr (orS op.predicate []) op.register
  let target ←
    match op.targets with
    | t :: _ => some t
    | [] => none
  match controls with
  | none =>
    pure ["// TODO: Flip target ".data ++ targetItemChars target ++ " where ".data
      ++ optStr op.predicate ++ " (non-conjunctive predicate)".data]
  | some [] => pure (emitWithWhen [xLine (qrefT op.register target)] op.whenG)
  | some [cv] =>
    let conj := if cv.2 = 0 then [xLine (qrefS op.register cv.1)] else []
    pure (emitWithWhen
      (conj ++ [cxLine (qrefS op.register cv.1) (qrefT op.register target)] ++ conj)
      op.whenG)
  | some [cv1, cv2] =>
    let pre := (if cv1.2 = 0 then [xLine (qrefS op.register cv1.1)] else [])
      ++ (if cv2.2 = 0 then [xLine (qrefS op.register cv2.1)] else [])
    let post := pre
    pure (emitWithWhen
      (pre ++ [ccxLine (qrefS op.register cv1.1) (qrefS op.register cv2.1)
        (qrefT op.register target)] ++ post)
      op.whenG)
  | some _ =>
    pure ["// TODO: multi-control flip for predicate ".data ++ [squoteC]
      ++ optStr op.predicate ++ [squoteC] ++ " not lowered".data]

/-- qasm_compiler.OpenQasmCompiler._emit_multi_control_x: the emitted
lines, together with the size of the ancilla register ensured for the
decomposition (0 when no ancilla register is touched). -/
def emitMultiControlX (reg : Str) (controls : List Int) (target : Int) : Nat × List Str :=
  match controls with
  | [] => (0, [xLine (qrefS reg target)])
  | [c0] => (0, [cxLine (qrefS reg c0) (qrefS reg target)])
  | [c0, c1] => (0, [ccxLine (qrefS reg c0) (qrefS reg c1) (qrefS reg target)])
  | c0 :: c1 :: c2 :: rest =>
    let k := rest.length + 3
    let ancCount := k - 2
    let anc := "anc_".data ++ reg
    let firstLine := ccxLine (qrefS reg c0) (qrefS reg c1) (qrefS anc 0)
    let chain := (List.range' 2 (k - 3)).map fun i =>
      ccxLine (qrefS reg ((c0 :: c1 :: c2 :: rest).getD i 0))
        (qrefS anc ((i - 2 : Nat) : Int)) (qrefS anc ((i - 1 : Nat) : Int))
    let finalLine := ccxLine (qrefS reg (rest.getLastD c2))
      (qrefS anc ((ancCount - 1 : Nat) : Int)) (qrefS reg target)
    (ancCount, [firstLine] ++ chain ++ [finalLine] ++ chain.reverse ++ [firstLine])

example : pccStr "q[1] == 0".data "q".data = some [(1, 0)] := by decide
example : pccStr "q[0] == 1 && q[2]".data "q".data = some [(0, 1), (2, 1)] := by decide
example : pccStr "q[0] || q[1]".data "q".data = none := by decide
example : pccStr "true".data "q".data = some [] := by decide
example : pccStr "q[0] == 1 junk".data "q".data = some [(0, 1)] := by decide
example : pccStr "q[0] junk".data "q".data = none := by decide
example : (emitMultiControlX "q".data [0, 1, 2] 3).2 =
    [ccxLine (qrefS "q".data 0) (qrefS "q".data 1) (qrefS "anc_q".data 0),
     ccxLine (qrefS "q".data 2) (qrefS "anc_q".data 0) (qrefS "q".data 3),
     ccxLine (qrefS "q".data 0) (qrefS "q".data 1) (qrefS "anc_q".data 0)] := by decide

/-!
Claim C5: multi-control synthesis.
-/
/-- A list of the shape p ++ [m] ++ reverse p is its own reverse. -/
theorem centered_palindrome {α : Type} (p : List α) (m : α) :
    (p ++ [m] ++ p.reverse).reverse = p ++ [m] ++ p.reverse := by
  simp [List.reverse_append]

/-- Structure of _emit_multi_control_x for three or more controls:
the emitted lines are a compute prefix, the single final doubly
controlled application onto the target, and the reversed prefix, with
the ancilla count one more than the number of extra controls. -/
theorem emitMCX_shape (reg : Str) (c0 c1 c2 : Int) (rest : List Int) (target : Int) :
    ∃ p : List Str, p.length = rest.length + 1 ∧
      emitMultiControlX reg (c0 :: c1 :: c2 :: rest) target
        = (rest.length + 1,
          p ++ [ccxLine (qrefS reg (rest.getLastD c2))
              (qrefS ("anc_".data ++ reg) (rest.length : Int)) (qrefS reg target)]
            ++ p.reverse) := by
  refine ⟨ccxLine (qrefS reg c0) (qrefS reg c1) (qrefS ("anc_".data ++ reg) 0)
    :: (List.range' 2 (rest.length + 3 - 3)).map
      (fun i => ccxLine (qrefS reg ((c0 :: c1 :: c2 :: rest).getD i 0))
        (qrefS ("anc_".data ++ reg) ((i - 2 : Nat) : Int))
        (qrefS ("anc_".data ++ reg) ((i - 1 : Nat) : Int))), ?_, ?_⟩
  · simp [List.length_range']
  · simp only [emitMultiControlX]
    have harith : rest.length + 3 - 2 = rest.length + 1 := by omega
    have harith2 : rest.length + 1 - 1 = rest.length := by omega
    rw [harith, harith2]
    simp

/-- Claim C5.  For k controls with k at least 3,
_emit_multi_control_x allocates an ancilla register of exactly k - 2
qubits and emits 2(k-2) + 1 instruction lines that are palindromic
around the single final doubly-controlled application onto the
target: the list equals its own reverse, the uncompute suffix is
exactly the reverse of the compute prefix, and the centre instruction
is the doubly controlled application of the last control and the last
ancilla onto the target. -/
theorem qscript_c5 (reg : Str) (controls : List Int) (target : Int)
    (h : 3 ≤ controls.length) :
    (emitMultiControlX reg controls target).1 = controls.length - 2 ∧
    (emitMultiControlX reg controls target).2.length = 2 * (controls.length - 2) + 1 ∧
    (emitMultiControlX reg controls target).2.reverse
      = (emitMultiControlX reg controls target).2 ∧
    (emitMultiControlX reg controls target).2.drop (controls.length - 1)
      = ((emitMultiControlX reg controls target).2.take (controls.length - 2)).reverse ∧
    (emitMultiControlX reg controls target).2[controls.length - 2]?
      = some (ccxLine (qrefS reg (controls.getLastD 0))
          (qrefS ("anc_".data ++ reg) ((controls.length - 3 : Nat) : Int))
          (qrefS reg target)) := by
  obtain _ | ⟨c0, _ | ⟨c1, _ | ⟨c2, rest⟩⟩⟩ := controls
  · simp at h
  · simp at h
  · simp at h
  · clear h
    obtain ⟨p, hp, hE⟩ := emitMCX_shape reg c0 c1 c2 rest target
    rw [hE]
    have hlen3 : (c0 :: c1 :: c2 :: rest).length = rest.length + 3 := by simp
    rw [hlen3]
    have e1 : rest.length + 3 - 2 = rest.length + 1 := by omega
    have e2 : rest.length + 3 - 1 = rest.length + 2 := by omega
    have e3 : rest.length + 3 - 3 = rest.length := by omega
    rw [e1, e2, e3, List.getLastD_cons, List.getLastD_cons, List.getLastD_cons]
    refine ⟨rfl, ?_, ?_, ?_, ?_⟩
    · simp [hp]
      omega
    · exact centered_palindrome p _
    · have hd : (p ++ [ccxLine (qrefS reg (rest.getLastD c2))
            (qrefS ("anc_".data ++ reg) (rest.length : Int)) (qrefS reg target)]
            ++ p.reverse).drop (rest.length + 2) = p.reverse := by
        rw [show p ++ [ccxLine (qrefS reg (rest.getLastD c2))
            (qrefS ("anc_".data ++ reg) (rest.length : Int)) (qrefS reg target)]
            ++ p.reverse
          = (p ++ [ccxLine (qrefS reg (rest.getLastD c2))
            (qrefS ("anc_".data ++ reg) (rest.length : Int)) (qrefS reg target)])
            ++ p.reverse from by simp]
        have hlen2 : (p ++ [ccxLine (qrefS reg (rest.getLastD c2))
            (qrefS ("anc_".data ++ reg) (rest.length : Int)) (qrefS reg target)]).length
            = rest.length + 2 := by simp [hp]
        rw [← hlen2, List.drop_left]
      have ht : (p ++ [ccxLine (qrefS reg (rest.getLastD c2))
            (qrefS ("anc_".data ++ reg) (rest.length : Int)) (qrefS reg target)]
            ++ p.reverse).take (rest.length + 1) = p := by
        rw [List.append_assoc, ← hp, List.take_left]
      rw [hd, ht]
    · rw [List.append_assoc, List.getElem?_append_right (by simp [hp])]
      simp [hp]

/-- Witness for C5 at four concrete controls. -/
theorem qscript_c5_witness :
    (emitMultiControlX "q".data [5, 6, 7, 8] 9).1 = 2 ∧
    (emitMultiControlX "q".data [5, 6, 7, 8] 9).2.reverse
      = (emitMultiControlX "q".data [5, 6, 7, 8] 9).2 :=
  ⟨(qscript_c5 "q".data [5, 6, 7, 8] 9 (by decide)).1,
    (qscript_c5 "q".data [5, 6, 7, 8] 9 (by decide)).2.2.1⟩

/-- Claim C8.  For a flip operation whose predicate decomposes to the
single control (c, 0) and with no when guard, _emit_flip emits exactly
three instructions in order: a NOT on the control, a singly controlled
NOT from the control onto the target, and a NOT on the control
again. -/
theorem qscript_c8 (op : PsiOperation) (c : Nat) (t : TargetItem)
    (hw : op.whenG = none) (ht : op.targets = [t])
    (hc : pccStr (orS op.predicate []) op.register = some [(c, 0)]) :
    emitFlip op = some [xLine (qrefS op.register (c : Int)),
      cxLine (qrefS op.register (c : Int)) (qrefT op.register t),
      xLine (qrefS op.register (c : Int))] := by
  simp only [emitFlip, hc, ht, hw, emitWithWhen]
  rfl

/-- Witness for C8: flipping target 0 of q where q[1] == 0. -/
theorem qscript_c8_witness :
    emitFlip
        { kind := "flip".data, register := "q".data, targets := [TargetItem.num 0],
          predicate := some "q[1] == 0".data,
          raw := "q.Flip(target: 0, where: q[1] == 0)".data }
      = some [xLine (qrefS "q".data 1),
        cxLine (qrefS "q".data 1) (qrefT "q".data (TargetItem.num 0)),
        xLine (qrefS "q".data 1)] :=
  qscript_c8 _ 1 (TargetItem.num 0) rfl rfl (by decide)

/-!
Claim C4: the predicate decomposer against the claim text.  The two
definitions below are written from the claim, not from the source:
c4ClaimDecompose renders the claim as stated (every term must fully
match one of the two forms), and c4AmendedDecompose renders the
amended claim (trivially true terms are skipped, and the equality form
needs to match only a prefix of the term).
-/

/-- Full-term match of register[i] == 0|1, as the claim as stated
requires. -/
def matchEqFormFull (register term : Str) : Option (Nat × Nat) :=
  if register.isPrefixOf term then
    match term.drop register.length with
    | '[' :: r1 =>
      let ds := r1.takeWhile isDigitC
      if ds.isEmpty then none
      else
        match r1.drop ds.length with
        | ']' :: r2 =>
          match r2.dropWhile isPyWs with
          | '=' :: '=' :: r4 =>
            match r4.dropWhile isPyWs with
            | ['0'] => some (digitsVal ds, 0)
            | ['1'] => some (digitsVal ds, 1)
            | _ => none
          | _ => none
        | _ => none
    | _ => none
  else none

/-- One term of the claim as stated: a full equality form or a bare
reference. -/
def c4TermSpec (register term : Str) : Option (Nat × Nat) :=
  match matchEqFormFull register term with
  | some iv => some iv
  | none => (matchSimpleForm register term).map fun i => (i, 1)

/-- The decomposer the claim as stated describes: absent predicate is
no controls, a disjunction marker is unsupported, otherwise every
trimmed term must fully match one of the two forms, in order. -/
def c4ClaimDecompose (predicate : Option Str) (register : Str) :
    Option (List (Nat × Nat)) :=
  match predicate with
  | none => some []
  | some p =>
    if containsSub "||".data p then none
    else ((splitOnSub "&&".data p).map pyStrip).mapM (c4TermSpec register)

/-- One term of the amended claim: the equality form matches a prefix
of the term (trailing text ignored, as re.match does), the bare form
matches the whole term. -/
def c4TermAmended (register term : Str) : Option (Nat × Nat) :=
  match matchEqForm register term with
  | some iv => some iv
  | none => (matchSimpleForm register term).map fun i => (i, 1)

/-- The amended decomposer: as the claim, except that terms equal
(case-insensitively, after trimming) to true, 1 or the empty string
are skipped, and the equality form is matched as a prefix. -/
def c4AmendedDecompose (predicate : Option Str) (register : Str) :
    Option (List (Nat × Nat)) :=
  match predicate with
  | none => some []
  | some p =>
    if containsSub "||".data p then none
    else
      (((splitOnSub "&&".data p).map pyStrip).filter (fun t => !pccSkip t)).mapM
        (c4TermAmended register)

/-- The term loop of the source equals filtering the skipped terms and
then resolving each remaining term in order. -/
theorem pccGo_eq_mapM (register : Str) (ts : List Str) :
    pccGo register ts = (ts.filter (fun t => !pccSkip t)).mapM (c4TermAmended register) := by
  induction ts with
  | nil => rfl
  | cons t rest ih =>
    by_cases hskip : pccSkip t = true
    · simp [pccGo, hskip, List.filter_cons, ih]
    · simp only [pccGo, hskip, if_false, List.filter_cons]
      simp only [Bool.not_eq_true] at hskip
      simp only [hskip, Bool.not_false, if_true, List.mapM_cons]
      cases heq : matchEqForm register t with
      | some iv => simp [c4TermAmended, heq, ih, Option.map_eq_bind]
      | none =>
        cases hsi : matchSimpleForm register t with
        | some i => simp [c4TermAmended, heq, hsi, ih, Option.map_eq_bind]
        | none => simp [c4TermAmended, heq, hsi]

/-- Counterexample for C4 as stated: the code accepts the predicate
true as an empty control list where the claim requires unsupported,
and accepts trailing text after an equality term where the claim
requires unsupported. -/
theorem qscript_c4_counterexample :
    parse_conjunctive_controls (some "true".data) "q".data = some [] ∧
    c4ClaimDecompose (some "true".data) "q".data = none ∧
    parse_conjunctive_controls (some "q[0] == 1 junk".data) "q".data = some [(0, 1)] ∧
    c4ClaimDecompose (some "q[0] == 1 junk".data) "q".data = none := by
  refine ⟨by decide, by decide, by decide, by decide⟩

/-- Claim C4 as amended: parse_conjunctive_controls coincides with the
amended claim-side decomposer on every predicate and register name;
in particular an absent predicate gives no controls, a disjunction
marker gives unsupported, and control order follows term order. -/
theorem qscript_c4 (predicate : Option Str) (register : Str) :
    parse_conjunctive_controls predicate register = c4AmendedDecompose predicate register := by
  cases predicate with
  | none => rfl
  | some p =>
    simp only [parse_conjunctive_controls, c4AmendedDecompose, pccStr]
    by_cases hor : containsSub "||".data p = true
    · simp [hor]
    · simp only [Bool.not_eq_true] at hor
      simp [hor, pccGo_eq_mapM]

/-!
Claim C7: duration parsing.  The list lemmas and character-class
facts below support the universal part of the claim.
-/

/-- dropWhile is the identity when no element satisfies the test. -/
theorem dropWhile_eq_self_of (p : Char → Bool) (s : Str) (h : ∀ c ∈ s, p c = false) :
    s.dropWhile p = s := by
  cases s with
  | nil => rfl
  | cons a l => simp [List.dropWhile_cons, h a (by simp)]

/-- Stripping is the identity on whitespace-free text. -/
theorem pyStrip_eq_self (s : Str) (h : ∀ c ∈ s, isPyWs c = false) : pyStrip s = s := by
  unfold pyStrip
  rw [dropWhile_eq_self_of _ _ h, dropWhile_eq_self_of, List.reverse_reverse]
  intro c hc
  exact h c (by simpa using hc)

/-- takeWhile over an append whose left part all passes and whose
right part starts failing. -/
theorem takeWhile_app (p : Char → Bool) (xs ys : Str) (hx : ∀ c ∈ xs, p c = true)
    (hy : ∀ d l, ys = d :: l → p d = false) :
    (xs ++ ys).takeWhile p = xs := by
  induction xs with
  | nil =>
    cases ys with
    | nil => rfl
    | cons d l => simp [List.takeWhile_cons, hy d l rfl]
  | cons a xs ih =>
    simp only [List.cons_append, List.takeWhile_cons, hx a (by simp), if_true]
    rw [ih (fun c hc => hx c (by simp [hc]))]

/-- dropWhile over the same split. -/
theorem dropWhile_app (p : Char → Bool) (xs ys : Str) (hx : ∀ c ∈ xs, p c = true)
    (hy : ∀ d l, ys = d :: l → p d = false) :
    (xs ++ ys).dropWhile p = ys := by
  induction xs with
  | nil =>
    cases ys with
    | nil => rfl
    | cons d l => simp [List.dropWhile_cons, hy d l rfl]
  | cons a xs ih =>
    simp only [List.cons_append, List.dropWhile_cons, hx a (by simp), if_true]
    exact ih (fun c hc => hx c (by simp [hc]))

/-- Characters are determined by their code points. -/
theorem char_eq_of_toNat {c d : Char} (h : c.toNat = d.toNat) : c = d :=
  Char.ext (UInt32.ext h)

/-- The digit class by code point. -/
theorem isDigitC_iff (c : Char) : isDigitC c = true ↔ 48 ≤ c.toNat ∧ c.toNat ≤ 57 := by
  simp [isDigitC]

/-- The letter class by code point. -/
theorem isAlphaC_iff (c : Char) :
    isAlphaC c = true ↔ (65 ≤ c.toNat ∧ c.toNat ≤ 90) ∨ (97 ≤ c.toNat ∧ c.toNat ≤ 122) := by
  simp [isAlphaC]

/-- The whitespace class by code point. -/
theorem isPyWs_iff (c : Char) :
    isPyWs c = true ↔ c.toNat = 32 ∨ c.toNat = 9 ∨ c.toNat = 10 ∨ c.toNat = 13 ∨
      c.toNat = 11 ∨ c.toNat = 12 := by
  simp only [isPyWs, Bool.or_eq_true, beq_iff_eq]
  constructor
  · rintro (((((h | h) | h) | h) | h) | h) <;> subst h <;> decide
  · rintro (h | h | h | h | h | h) <;>
      [skip; skip; skip; skip; skip; skip] <;>
      first
      | (exact Or.inl (Or.inl (Or.inl (Or.inl (Or.inl (char_eq_of_toNat h)))))
        )
      | (exact Or.inl (Or.inl (Or.inl (Or.inl (Or.inr (char_eq_of_toNat h)))))
        )
      | (exact Or.inl (Or.inl (Or.inl (Or.inr (char_eq_of_toNat h)))))
      | (exact Or.inl (Or.inl (Or.inr (char_eq_of_toNat h))))
      | (exact Or.inl (Or.inr (char_eq_of_toNat h)))
      | (exact Or.inr (char_eq_of_toNat h))

/-- A character outside the whitespace code points is not
whitespace. -/
theorem notPyWs_of_toNat (c : Char)
    (h : c.toNat ≠ 32 ∧ c.toNat ≠ 9 ∧ c.toNat ≠ 10 ∧ c.toNat ≠ 13 ∧
      c.toNat ≠ 11 ∧ c.toNat ≠ 12) : isPyWs c = false := by
  rw [Bool.eq_false_iff]
  intro hw
  rw [isPyWs_iff] at hw
  omega

/-- A digit is not whitespace, not a letter, and none of the special
number characters. -/
theorem digit_class (c : Char) (h : isDigitC c = true) :
    isPyWs c = false ∧ isAlphaC c = false ∧ c ≠ '-' ∧ c ≠ '+' ∧ c ≠ '.' ∧ c ≠ 'e' := by
  rw [isDigitC_iff] at h
  refine ⟨notPyWs_of_toNat c (by omega), ?_, ?_, ?_, ?_, ?_⟩
  · rw [Bool.eq_false_iff]; intro ha; rw [isAlphaC_iff] at ha; omega
  all_goals (intro he; subst he; revert h; decide)

/-- A letter is not whitespace, not a digit, and none of the special
number characters. -/
theorem alpha_class (c : Char) (h : isAlphaC c = true) :
    isPyWs c = false ∧ isDigitC c = false ∧ c ≠ '-' ∧ c ≠ '+' ∧ c ≠ '.' := by
  rw [isAlphaC_iff] at h
  refine ⟨notPyWs_of_toNat c (by omega), ?_, ?_, ?_, ?_⟩
  · rw [Bool.eq_false_iff]; intro ha; rw [isDigitC_iff] at ha; omega
  all_goals (intro he; subst he; revert h; decide)

theorem takeWhile_nil_of_head (p : Char → Bool) (u : Str)
    (hu : ∀ d l, u = d :: l → p d = false) : u.takeWhile p = [] := by
  cases u with
  | nil => rfl
  | cons d l => simp [List.takeWhile_cons, hu d l rfl]

/-- takeWhile is the identity when every element passes. -/
theorem takeWhile_all (p : Char → Bool) (u : Str) (hp : ∀ c ∈ u, p c = true) :
    u.takeWhile p = u := by
  induction u with
  | nil => rfl
  | cons a l ih =>
    simp only [List.takeWhile_cons, hp a (by simp), if_true]
    rw [ih (fun c hc => hp c (by simp [hc]))]

/-- Duration parsing of an integer numeral followed by an arbitrary
alphabetic unit suffix: the value is the numeral times the unit factor
of the lower-cased suffix, an absent suffix defaulting to
nanoseconds. -/
theorem parseDuration_numeral (ds u : Str) (hne : ds ≠ [])
    (hd : ∀ c ∈ ds, isDigitC c = true) (hu : ∀ c ∈ u, isAlphaC c = true) :
    (parseDuration (some (ds ++ u))).val
      = (digitsVal ds : ℚ)
        * (unitFactor (lowerS (if u.isEmpty then "ns".data else u))).val := by
  obtain ⟨d0, dtail, rfl⟩ : ∃ d0 dtail, ds = d0 :: dtail := by
    cases ds with
    | nil => exact absurd rfl hne
    | cons a l => exact ⟨a, l, rfl⟩
  have hd0 := digit_class d0 (hd d0 (by simp))
  have hall : ∀ c ∈ (d0 :: dtail) ++ u, isPyWs c = false := by
    intro c hc
    rcases List.mem_append.mp hc with h | h
    · exact (digit_class c (hd c h)).1
    · exact (alpha_class c (hu c h)).1
  have hutail : ∀ d l, u = d :: l → isDigitC d = false := by
    intro d l hdl
    exact (alpha_class d (hu d (by rw [hdl]; simp))).2.1
  have htw : ((d0 :: dtail) ++ u).takeWhile isDigitC = d0 :: dtail :=
    takeWhile_app _ _ _ hd hutail
  have hdw : ((d0 :: dtail) ++ u).dropWhile isDigitC = u :=
    dropWhile_app _ _ _ hd hutail
  have hstrip : pyStrip ((d0 :: dtail) ++ u) = (d0 :: dtail) ++ u :=
    pyStrip_eq_self _ hall
  have hsign : parseSign ((d0 :: dtail) ++ u) = (false, (d0 :: dtail) ++ u) := by
    simp only [List.cons_append, parseSign]
    rw [beq_eq_false_iff_ne.mpr hd0.2.2.1, beq_eq_false_iff_ne.mpr hd0.2.2.2.1]
    simp
  -- the exponent never fires on an alphabetic suffix
  have hexp : parseExponent u = (none, u) := by
    cases u with
    | nil => rfl
    | cons a l =>
      simp only [parseExponent]
      by_cases he : a == 'e'
      · rw [if_pos he]
        have hsgl : parseSign l = (false, l) := by
          cases l with
          | nil => rfl
          | cons b m =>
            have hb := alpha_class b (hu b (by simp))
            simp only [parseSign]
            rw [beq_eq_false_iff_ne.mpr hb.2.2.1, beq_eq_false_iff_ne.mpr hb.2.2.2.1]
            simp
        rw [hsgl]
        have : l.takeWhile isDigitC = [] := by
          apply takeWhile_nil_of_head
          intro d m hdm
          exact (alpha_class d (hu d (by rw [hdm]; simp))).2.1
        simp [this]
      · rw [if_neg he]
  have hnum : parseNumberTok ((d0 :: dtail) ++ u)
      = some (⟨(digitsVal (d0 :: dtail) : Nat), 1⟩, u) := by
    cases u with
    | nil =>
      simp only [parseNumberTok, hsign, htw, hdw]
      simp [hexp, digitsVal, tenPowP]
    | cons a l =>
      have ha := alpha_class a (hu a (by simp))
      simp only [parseNumberTok, hsign, htw, hdw]
      simp only [beq_eq_false_iff_ne.mpr ha.2.2.2.2, if_false, Bool.false_eq_true]
      simp [hexp, digitsVal, tenPowP]
  simp only [parseDuration]
  have hni : ((d0 :: dtail) ++ u).isEmpty = false := rfl
  rw [hni]
  simp only [Bool.false_eq_true, if_false, splitNumberUnit, hstrip, hnum]
  have hletters : u.dropWhile isPyWs = u := by
    apply dropWhile_eq_self_of
    intro c hc
    exact (alpha_class c (hu c hc)).1
  have htwa : u.takeWhile isAlphaC = u := takeWhile_all isAlphaC u hu
  simp only [hletters, htwa]
  rw [Fr.val_mul]
  have hb : (⟨(digitsVal (d0 :: dtail) : Nat), 1⟩ : Fr).val
      = (digitsVal (d0 :: dtail) : ℚ) := by
    simp [Fr.val]
  rw [hb]

/-- Claim C7.  Duration parsing is total; for every integer numeral
and alphabetic suffix it multiplies the value by the suffix factor
(case-insensitively, absent suffix defaulting to nanoseconds); the
claimed concrete values hold, the empty and unparsable strings give 0,
and the seven unit multipliers are as listed. -/
theorem qscript_c7 :
    (∀ ds u : Str, ds ≠ [] → (∀ c ∈ ds, isDigitC c = true) →
      (∀ c ∈ u, isAlphaC c = true) →
      (parseDuration (some (ds ++ u))).val
        = (digitsVal ds : ℚ)
          * (unitFactor (lowerS (if u.isEmpty then "ns".data else u))).val) ∧
    (parseDuration (some "20ns".data)).val = 20 ∧
    (parseDuration (some "5us".data)).val = 5000 ∧
    (parseDuration (some "1.5ms".data)).val = 1500000 ∧
    (parseDuration (some "3dt".data)).val = 3 ∧
    (parseDuration none).val = 0 ∧
    (parseDuration (some ([] : Str))).val = 0 ∧
    (parseDuration (some "abc".data)).val = 0 ∧
    (parseDuration (some "7s".data)).val = 7000000000 ∧
    (parseDuration (some "2ps".data)).val = 2 / 1000 ∧
    (parseDuration (some "2fs".data)).val = 2 / 1000000 ∧
    (parseDuration (some "20NS".data)).val = 20 ∧
    (parseDuration (some "4Us".data)).val = 4000 ∧
    (parseDuration (some "7".data)).val = 7 ∧
    (unitFactor "s".data).val = 1000000000 ∧
    (unitFactor "ms".data).val = 1000000 ∧
    (unitFactor "us".data).val = 1000 ∧
    (unitFactor "ns".data).val = 1 ∧
    (unitFactor "ps".data).val = 1 / 1000 ∧
    (unitFactor "fs".data).val = 1 / 1000000 ∧
    (unitFactor "dt".data).val = 1 := by
  refine ⟨parseDuration_numeral, ?_, ?_, ?_, ?_, ?_, ?_, ?_, ?_, ?_, ?_, ?_, ?_, ?_,
    ?_, ?_, ?_, ?_, ?_, ?_, ?_⟩
  · rw [show parseDuration (some "20ns".data) = (⟨20, 1⟩ : Fr) from by decide]
    norm_num [Fr.val]
  · rw [show parseDuration (some "5us".data) = (⟨5000, 1⟩ : Fr) from by decide]
    norm_num [Fr.val]
  · rw [show parseDuration (some "1.5ms".data) = (⟨15000000, 10⟩ : Fr) from by decide]
    norm_num [Fr.val]
  · rw [show parseDuration (some "3dt".data) = (⟨3, 1⟩ : Fr) from by decide]
    norm_num [Fr.val]
  · rw [show parseDuration none = (⟨0, 1⟩ : Fr) from by decide]
    norm_num [Fr.val]
  · rw [show parseDuration (some ([] : Str)) = (⟨0, 1⟩ : Fr) from by decide]
    norm_num [Fr.val]
  · rw [show parseDuration (some "abc".data) = (⟨0, 1⟩ : Fr) from by decide]
    norm_num [Fr.val]
  · rw [show parseDuration (some "7s".data) = (⟨7000000000, 1⟩ : Fr) from by decide]
    norm_num [Fr.val]
  · rw [show parseDuration (some "2ps".data) = (⟨2, 1000⟩ : Fr) from by decide]
    norm_num [Fr.val]
  · rw [show parseDuration (some "2fs".data) = (⟨2, 1000000⟩ : Fr) from by decide]
    norm_num [Fr.val]
  · rw [show parseDuration (some "20NS".data) = (⟨20, 1⟩ : Fr) from by decide]
    norm_num [Fr.val]
  · rw [show parseDuration (some "4Us".data) = (⟨4000, 1⟩ : Fr) from by decide]
    norm_num [Fr.val]
  · rw [show parseDuration (some "7".data) = (⟨7, 1⟩ : Fr) from by decide]
    norm_num [Fr.val]
  · rw [show unitFactor "s".data = (⟨1000000000, 1⟩ : Fr) from by decide]
    norm_num [Fr.val]
  · rw [show unitFactor "ms".data = (⟨1000000, 1⟩ : Fr) from by decide]
    norm_num [Fr.val]
  · rw [show unitFactor "us".data = (⟨1000, 1⟩ : Fr) from by decide]
    norm_num [Fr.val]
  · rw [show unitFactor "ns".data = (⟨1, 1⟩ : Fr) from by decide]
    norm_num [Fr.val]
  · rw [show unitFactor "ps".data = (⟨1, 1000⟩ : Fr) from by decide]
    norm_num [Fr.val]
  · rw [show unitFactor "fs".data = (⟨1, 1000000⟩ : Fr) from by decide]
    norm_num [Fr.val]
  · rw [show unitFactor "dt".data = (⟨1, 1⟩ : Fr) from by decide]
    norm_num [Fr.val]

/-- Witness for C7 at the numeral 42 with the upper-cased
microsecond suffix. -/
theorem qscript_c7_witness :
    ("42".data : Str) ≠ [] ∧ (parseDuration (some "42US".data)).val = 42000 := by
  refine ⟨by decide, ?_⟩
  have h := qscript_c7.1 "42".data "US".data (by decide) (by decide) (by decide)
  rw [show ("42US".data : Str) = "42".data ++ "US".data from rfl, h]
  rw [show lowerS (if ("US".data : Str).isEmpty then "ns".data else "US".data)
    = "us".data from by decide]
  rw [show unitFactor "us".data = (⟨1000, 1⟩ : Fr) from by decide]
  rw [show digitsVal "42".data = 42 from by decide]
  norm_num [Fr.val]

/-!
Claim C10: angle-evaluation asymmetry between the logic and pulse
layers.
-/

/-- Claim C10.  Whenever the angle text of a clause fails to evaluate,
the Phase branch propagates the exception (the whole resolution
returns none), while the Rotate and ShiftPhase branches succeed with
the angle silently replaced by 0.0; the last three conjuncts exercise
the full dispatcher on concrete clauses with the same malformed angle
text. -/
theorem qscript_c10 :
    (∀ stmt scope reg args a, splitCall stmt ".Phase".data = some (reg, args) →
      lookupKV (parseKeyValues args) "angle".data = some a →
      evalAngle a = none →
      parsePhase stmt scope = none) ∧
    (∀ stmt scope actx dflt args a, extractArgs stmt "Rotate".data = some args →
      lookupKV (parseKeyValues args) "angle".data = some a →
      evalAngle a = none →
      (parseRotate stmt scope actx dflt).map (fun p => p.1.map (fun o => o.angle))
        = some (some angleZero)) ∧
    (∀ stmt scope actx dflt args a, extractArgs stmt "ShiftPhase".data = some args →
      lookupKV (parseKeyValues args) "angle".data = some a →
      evalAngle a = none →
      (parseShiftPhase stmt scope actx dflt).map (fun p => p.1.map (fun o => o.angle))
        = some (some angleZero)) ∧
    parseOperation "q.Phase(angle: oops)".data buildCtx = none ∧
    (parseOperation "Rotate(angle: oops, duration: 10ns)".data buildCtx).map
        (fun p => p.1.map (fun o => o.angle)) = some (some angleZero) ∧
    (parseOperation "ShiftPhase(angle: oops)".data buildCtx).map
        (fun p => p.1.map (fun o => o.angle)) = some (some angleZero) := by
  refine ⟨?_, ?_, ?_, by decide, by decide, by decide⟩
  · intro stmt scope reg args a hsplit hlook hmal
    simp [parsePhase, hsplit, hlook, hmal]
  · intro stmt scope actx dflt args a hex hlook hmal
    simp [parseRotate, hex, hlook, hmal, safeEvalAngle]
  · intro stmt scope actx dflt args a hex hlook hmal
    simp [parseShiftPhase, hex, hlook, hmal, safeEvalAngle]

/-- Witness for C10: the Phase branch aborts on the malformed angle
text oops. -/
theorem qscript_c10_witness :
    parsePhase "q.Phase(angle: oops)".data "logic".data = none :=
  qscript_c10.1 "q.Phase(angle: oops)".data "logic".data "q".data "angle: oops".data
    "oops".data (by decide) (by decide) (by decide)

/-!
Claim C6: brace handling in the statement tree builder.
-/

/-- Tree construction from a token list (the parse_block call of
_gather_statements; gatherStatements is this composed with the
tokenizer). -/
def parseTokens (toks : List Str) : List Stmt :=
  (parseBlockF (toks.length + 1) toks).1

/-- A token that is neither a semicolon nor a brace. -/
abbrev isPlainTok (t : Str) : Prop := t ≠ [';'] ∧ t ≠ [obrC] ∧ t ≠ [cbrC]

/-- Modelled from the spec: the depth scan deciding whether the brace
tokens of a source are balanced (the claim speaks of unbalanced
braces; the source never checks this). -/
def balancedToksGo : List Str → Nat → Bool
  | [], depth => depth == 0
  | t :: rest, depth =>
    if t = [obrC] then balancedToksGo rest (depth + 1)
    else if t = [cbrC] then decide (0 < depth) && balancedToksGo rest (depth - 1)
    else balancedToksGo rest depth

/-- Modelled from the spec: balanced brace tokens. -/
def balancedToks (toks : List Str) : Bool := balancedToksGo toks 0

/-- Parsing no tokens yields no statements at any fuel. -/
theorem parseBlockF_nil (f : Nat) : parseBlockF f [] = ([], []) := by
  cases f <;> rfl

/-- A run of plain clause tokens parses to leaves, and parsing then
continues on the remaining tokens, whenever the continuation does not
start with an opening brace or semicolon. -/
theorem parseBlockF_plain_head (hs : List Str) (f : Nat) (cont : List Str)
    (hhs : ∀ s ∈ hs, isPlainTok s)
    (hcont : ∀ r0 rrest, cont = r0 :: rrest → r0 ≠ [obrC] ∧ r0 ≠ [';']) :
    parseBlockF (hs.length + f) (hs ++ cont)
      = ((hs.map (fun s => Stmt.mk s [])) ++ (parseBlockF f cont).1,
        (parseBlockF f cont).2) := by
  induction hs with
  | nil =>
    simp only [List.length_nil, Nat.zero_add, List.nil_append, List.map_nil]
  | cons h0 hs ih =>
    have hh0 := hhs h0 (by simp)
    have hf : (h0 :: hs).length + f = (hs.length + f) + 1 := by
      simp [List.length_cons]; omega
    rw [hf]
    simp only [List.cons_append, parseBlockF]
    rw [if_neg hh0.1, if_neg hh0.2.2]
    cases hs with
    | nil =>
      simp only [List.nil_append, List.length_nil, Nat.zero_add]
      cases cont with
      | nil =>
        simp only [parseBlockF_nil]
        rfl
      | cons r0 rrest =>
        obtain ⟨hr1, hr2⟩ := hcont r0 rrest rfl
        dsimp only
        rw [if_neg hr1]
        dsimp only
        rw [if_neg hr2]
        simp
    | cons h1 hs2 =>
      have hh1 := hhs h1 (by simp)
      simp only [List.cons_append]
      rw [if_neg hh1.2.1]
      dsimp only
      rw [if_neg hh1.1]
      have ihr := ih (fun s hm => hhs s (by simp [hm]))
      simp only [List.cons_append, List.length_cons] at ihr ⊢
      rw [ihr]
      simp

/-- A source whose opening brace is never closed. -/
def c6UnbalancedLines : List Str :=
  ["Analog(target: q[0]) \x7b".data, "Wait(duration: 5ns);".data]

/-- A source with a stray closing brace. -/
def c6StrayCloseLines : List Str := ["a;".data, "\x7d".data, "b;".data]

/-- Counterexample for C6 as stated: both unbalanced sources produce a
full statement tree (the unmatched opening brace absorbs the rest of
the input as children; the stray closing brace ends the top block,
dropping the rest), so compilation does not abort and a statement tree
is produced. -/
theorem qscript_c6_counterexample :
    balancedToks (gatherTokens c6UnbalancedLines) = false ∧
    gatherStatements c6UnbalancedLines
      = [Stmt.mk "Analog(target: q[0])".data [Stmt.mk "Wait(duration: 5ns)".data []]] ∧
    balancedToks (gatherTokens c6StrayCloseLines) = false ∧
    gatherStatements c6StrayCloseLines = [Stmt.mk "a".data []] :=
  ⟨by decide, rfl, by decide, rfl⟩

/-- Claim C6 as amended: unbalanced braces are silently tolerated.
For any run of plain clause tokens, a stray closing brace simply ends
the block, the remaining tokens being dropped at top level, and an
unmatched opening brace makes the remaining clauses the children of
the preceding clause; no error is ever raised. -/
theorem qscript_c6 (hs ts hs2 : List Str) (h : Str)
    (hhs : ∀ s ∈ hs, isPlainTok s) (hh : isPlainTok h)
    (hhs2 : ∀ s ∈ hs2, isPlainTok s) :
    parseTokens (hs ++ ([cbrC] : Str) :: ts) = hs.map (fun s => Stmt.mk s []) ∧
    parseTokens (hs ++ h :: ([obrC] : Str) :: hs2)
      = hs.map (fun s => Stmt.mk s [])
        ++ [Stmt.mk h (hs2.map (fun s => Stmt.mk s []))] := by
  constructor
  · unfold parseTokens
    have hflen : (hs ++ ([cbrC] : Str) :: ts).length + 1 = hs.length + (ts.length + 2) := by
      simp; omega
    rw [hflen]
    rw [parseBlockF_plain_head hs (ts.length + 2) (([cbrC] : Str) :: ts) hhs
      (fun r0 rrest hEq => by cases hEq; exact ⟨by decide, by decide⟩)]
    have hc : parseBlockF (ts.length + 2) (([cbrC] : Str) :: ts) = ([], ts) := by
      show parseBlockF ((ts.length + 1) + 1) (([cbrC] : Str) :: ts) = ([], ts)
      simp only [parseBlockF]
      rw [if_neg (by decide)]
      simp
    rw [hc]
    simp
  · unfold parseTokens
    have hflen : (hs ++ h :: ([obrC] : Str) :: hs2).length + 1
        = hs.length + (hs2.length + 3) := by
      simp; omega
    rw [hflen]
    rw [parseBlockF_plain_head hs (hs2.length + 3) (h :: ([obrC] : Str) :: hs2) hhs
      (fun r0 rrest hEq => by cases hEq; exact ⟨hh.2.1, hh.1⟩)]
    have hch : parseBlockF (hs2.length + 2) hs2 = (hs2.map (fun s => Stmt.mk s []), []) := by
      have hpre := parseBlockF_plain_head hs2 2 [] hhs2
        (fun r0 rrest hEq => absurd hEq (by simp))
      simp only [List.append_nil] at hpre
      rw [hpre]
      simp [parseBlockF_nil]
    have hstep : parseBlockF (hs2.length + 3) (h :: ([obrC] : Str) :: hs2)
        = (if h = [';'] then parseBlockF (hs2.length + 2) (([obrC] : Str) :: hs2)
          else if h = [cbrC] then ([], ([obrC] : Str) :: hs2)
          else
            (Stmt.mk h (parseBlockF (hs2.length + 2) hs2).1 ::
              (parseBlockF (hs2.length + 2)
                (match (parseBlockF (hs2.length + 2) hs2).2 with
                  | nx :: r2 => if nx = [';'] then r2 else nx :: r2
                  | [] => [])).1,
              (parseBlockF (hs2.length + 2)
                (match (parseBlockF (hs2.length + 2) hs2).2 with
                  | nx :: r2 => if nx = [';'] then r2 else nx :: r2
                  | [] => [])).2)) := rfl
    have hinner : parseBlockF (hs2.length + 3) (h :: ([obrC] : Str) :: hs2)
        = ([Stmt.mk h (hs2.map (fun s => Stmt.mk s []))], []) := by
      rw [hstep, if_neg hh.1, if_neg hh.2.2, hch]
      simp [parseBlockF_nil]
    rw [hinner]

/-- Witness for C6 as amended, at concrete token lists. -/
theorem qscript_c6_witness :
    (∀ s ∈ (["a".data, "b".data] : List Str), isPlainTok s) ∧
    parseTokens (["a".data, "b".data] ++ ([cbrC] : Str) :: ["zz".data])
      = [Stmt.mk "a".data [], Stmt.mk "b".data []] ∧
    parseTokens (["a".data, "b".data] ++ "hd".data :: ([obrC] : Str) :: ["c".data])
      = [Stmt.mk "a".data [], Stmt.mk "b".data [],
        Stmt.mk "hd".data [Stmt.mk "c".data []]] := by
  refine ⟨by decide, ?_, ?_⟩
  · exact (qscript_c6 ["a".data, "b".data] ["zz".data] ["c".data] "hd".data
      (by decide) (by decide) (by decide)).1
  · exact (qscript_c6 ["a".data, "b".data] ["zz".data] ["c".data] "hd".data
      (by decide) (by decide) (by decide)).2

/-!
Claim C9: register filtering (PulseScheduler._compile_block with a
target register filter).
-/

/-- The per-statement head computation of _compile_block: the events
and cursor advance contributed by one clause before the walk moves to
the next statement. -/
def hdOf (f : Nat) (filt : Option Str) (s : Stmt) (pu : Option PsiOperation × CtxUpdate)
    (ctx : Ctx) (t : Fr) (lbl : Option Str) : Option (List PulseEvent × Fr) :=
  let ctx2 := applyUpd ctx pu.2
  match pu.1 with
  | some op =>
    if PULSE_KINDS.contains op.kind then some (lowerPulseOp filt op t lbl)
    else if op.kind = "analog".data then compileBlockF f filt s.children ctx2 t lbl
    else if op.kind = "align".data then do
      let rs ← alignGo (compileBlockF f filt) s.children ctx2 t
      pure ((rs.map Prod.fst).join, listMaxFr (rs.map Prod.snd))
    else if s.children.isEmpty then some ([], frZero)
    else compileBlockF f filt s.children ctx2 t lbl
  | none =>
    if s.children.isEmpty then some ([], frZero)
    else compileBlockF f filt s.children ctx2 t lbl

/-- One unfolding step of the block walk on a cons cell. -/
theorem compileBlockF_cons (f : Nat) (filt : Option Str) (s : Stmt) (rest : List Stmt)
    (ctx : Ctx) (t : Fr) (lbl : Option Str) :
    compileBlockF (f + 1) filt (s :: rest) ctx t lbl
      = (parseOperation s.text ctx).bind (fun pu =>
          (hdOf f filt s pu ctx t lbl).bind (fun hd =>
            (compileBlockF f filt rest ctx (t.add hd.2) lbl).bind (fun tl =>
              some (hd.1 ++ tl.1, hd.2.add tl.2)))) := rfl

/-- Filtering a pulse lowering: the filtered head is the unfiltered
head with non-matching events dropped, with the same cursor advance. -/
theorem lowerPulseOp_filter (r : Str) (hr : r ≠ []) (op : PsiOperation) (t : Fr)
    (lbl : Option Str) :
    lowerPulseOp (some r) op t lbl
      = ((lowerPulseOp none op t lbl).1.filter (fun e => e.register == r),
          (lowerPulseOp none op t lbl).2) := by
  have hie : r.isEmpty = false := by
    cases r with
    | nil => exact absurd rfl hr
    | cons a l => rfl
  unfold lowerPulseOp includeEvent
  simp only [hie, Bool.false_or, if_true]
  by_cases h : (op.register == r) = true
  · have : ((pulseEventOf op t lbl).register == r) = true := h
    simp [h, this]
  · have h2 : ((pulseEventOf op t lbl).register == r) = false := by
      simp only [pulseEventOf]
      exact Bool.eq_false_iff.mpr h
    simp [h, h2, List.filter_cons]

/-- Filtering distributes over flattening. -/
theorem filter_join (p : α → Bool) (ls : List (List α)) :
    (ls.map (List.filter p)).join = (ls.join).filter p := by
  induction ls with
  | nil => rfl
  | cons l ls ih =>
    show List.filter p l ++ (ls.map (List.filter p)).join = (l ++ ls.join).filter p
    rw [List.filter_append, ih]

/-- The align branch loop is pointwise congruent: if one recursive
compiler is the image of another under a result transformation, the
whole branch loop is too. -/
theorem alignGo_congr
    (rec1 rec2 : List Stmt → Ctx → Fr → Option Str → Option (List PulseEvent × Fr))
    (F : List PulseEvent × Fr → List PulseEvent × Fr)
    (h : ∀ stmts ctx t lbl, rec1 stmts ctx t lbl = (rec2 stmts ctx t lbl).map F) :
    ∀ (bs : List Stmt) (ctx : Ctx) (t : Fr),
    alignGo rec1 bs ctx t = (alignGo rec2 bs ctx t).map (List.map F) := by
  intro bs
  induction bs with
  | nil => intro ctx t; rfl
  | cons b bs ih =>
    intro ctx t
    show (branchStep rec1 ctx t b).bind _ = ((branchStep rec2 ctx t b).bind _).map _
    have hb : branchStep rec1 ctx t b = (branchStep rec2 ctx t b).map F := by
      unfold branchStep
      cases hpu : parseOperation b.text ctx with
      | none => rfl
      | some pu => simp [h]
    rw [hb]
    cases branchStep rec2 ctx t b with
    | none => rfl
    | some rb =>
      simp only [Option.map_some', Option.some_bind]
      rw [ih ctx t]
      cases alignGo rec2 bs ctx t with
      | none => rfl
      | some rs => rfl

/-- The register-filter invariance of the walk: with a nonempty
filter, the walk computes exactly the unfiltered walk with the
non-matching events dropped, and in particular every cursor advance
and total duration is unchanged. -/
theorem compileBlockF_filter (r : Str) (hr : r ≠ []) :
    ∀ (fuel : Nat) (stmts : List Stmt) (ctx : Ctx) (t : Fr) (lbl : Option Str),
    compileBlockF fuel (some r) stmts ctx t lbl
      = (compileBlockF fuel none stmts ctx t lbl).map
          (fun p => (p.1.filter (fun e => e.register == r), p.2)) := by
  intro fuel
  induction fuel with
  | zero => intro stmts ctx t lbl; rfl
  | succ f ih =>
    intro stmts ctx t lbl
    cases stmts with
    | nil => rfl
    | cons s rest =>
      rw [compileBlockF_cons, compileBlockF_cons]
      cases hpu : parseOperation s.text ctx with
      | none => rfl
      | some pu =>
        simp only [Option.some_bind]
        have hhd : hdOf f (some r) s pu ctx t lbl
            = (hdOf f none s pu ctx t lbl).map
                (fun p => (p.1.filter (fun e => e.register == r), p.2)) := by
          unfold hdOf
          cases hop : pu.1 with
          | none =>
            dsimp only
            by_cases hch : s.children.isEmpty
            · rw [if_pos hch, if_pos hch]; rfl
            · rw [if_neg hch, if_neg hch, ih]
          | some op =>
            dsimp only
            by_cases hpk : PULSE_KINDS.contains op.kind = true
            · rw [if_pos hpk, if_pos hpk, lowerPulseOp_filter r hr]; rfl
            · rw [if_neg hpk, if_neg hpk]
              by_cases han : op.kind = "analog".data
              · rw [if_pos han, if_pos han, ih]
              · rw [if_neg han, if_neg han]
                by_cases hal : op.kind = "align".data
                · rw [if_pos hal, if_pos hal]
                  rw [alignGo_congr (compileBlockF f (some r)) (compileBlockF f none) _
                    (fun stmts ctx t lbl => ih stmts ctx t lbl)]
                  cases alignGo (compileBlockF f none) s.children (applyUpd ctx pu.2) t with
                  | none => rfl
                  | some rs =>
                    simp only [Option.bind_eq_bind, Option.some_bind, Option.map_some',
                      Option.pure_def]
                    rw [List.map_map, List.map_map]
                    rw [show (Prod.snd ∘ fun p : List PulseEvent × Fr =>
                        (p.1.filter (fun e => e.register == r), p.2)) = Prod.snd from rfl]
                    rw [show (Prod.fst ∘ fun p : List PulseEvent × Fr =>
                        (p.1.filter (fun e => e.register == r), p.2))
                        = (List.filter (fun e => e.register == r) ∘ Prod.fst) from rfl]
                    rw [← List.map_map, filter_join]
                · by_cases hch : s.children.isEmpty
                  · rw [if_neg hal, if_neg hal, if_pos hch, if_pos hch]; rfl
                  · rw [if_neg hal, if_neg hal, if_neg hch, if_neg hch, ih]
        rw [hhd]
        cases hh2 : hdOf f none s pu ctx t lbl with
        | none => rfl
        | some hd2 =>
          simp only [Option.map_some', Option.some_bind]
          rw [ih rest ctx (t.add hd2.2) lbl]
          cases compileBlockF f none rest ctx (t.add hd2.2) lbl with
          | none => rfl
          | some tl => simp [List.filter_append]

/-- Two pulse statements on different registers (the ambient default
register is q, the rotation retargets p[0]). -/
def c9Stmts : List Stmt :=
  [Stmt.mk "Rotate(target: p[0], duration: 7ns)".data [],
    Stmt.mk "Wait(duration: 5ns)".data []]

/-- Claim C9 (confirmed).  With a nonempty target-register filter,
scheduling any statement tree produces exactly the events of the
unfiltered schedule whose register matches the filter, each with its
identical start time, and the same total duration: the filtered walk
is the unfiltered walk followed by a filter on the event list that
leaves the duration component untouched. -/
theorem qscript_c9 (r : Str) (hr : r ≠ []) (fuel : Nat) (stmts : List Stmt)
    (ctx : Ctx) (t : Fr) (lbl : Option Str) :
    compileBlockF fuel (some r) stmts ctx t lbl
      = (compileBlockF fuel none stmts ctx t lbl).map
          (fun p => (p.1.filter (fun e => e.register == r), p.2)) :=
  compileBlockF_filter r hr fuel stmts ctx t lbl

/-- Witness for C9 at a concrete two-register block: the rotation on
p[0] is dropped by the q filter but still advances the cursor by its
7ns duration, so the retained wait event starts at 7ns and the total
duration is 12ns either way. -/
theorem qscript_c9_witness :
    (compileBlockF 10 (some "q".data) c9Stmts buildCtx frZero none
        = (compileBlockF 10 none c9Stmts buildCtx frZero none).map
            (fun p => (p.1.filter (fun e => e.register == "q".data), p.2)))
      ∧ (compileBlockF 10 (some "q".data) c9Stmts buildCtx frZero none).map
            (fun p => (p.1.map (fun e => (e.register, e.startNs.val, e.durationNs.val)),
              p.2.val))
          = some ([("q".data, 7, 5)], 12)
      ∧ (compileBlockF 10 none c9Stmts buildCtx frZero none).map
            (fun p => (p.1.map (fun e => (e.register, e.startNs.val, e.durationNs.val)),
              p.2.val))
          = some ([("p".data, 0, 7), ("q".data, 7, 5)], 12) := by
  refine ⟨qscript_c9 "q".data (by decide) 10 c9Stmts buildCtx frZero none, ?_, ?_⟩
  · have h1 : (compileBlockF 10 (some "q".data) c9Stmts buildCtx frZero none).map
        (fun p => (p.1.map (fun e => (e.register, e.startNs, e.durationNs)), p.2))
        = some ([("q".data, ⟨7, 1⟩, ⟨5, 1⟩)], ⟨12, 1⟩) := by decide
    cases hc : compileBlockF 10 (some "q".data) c9Stmts buildCtx frZero none with
    | none => rw [hc] at h1; simp at h1
    | some p =>
      rw [hc] at h1
      simp only [Option.map_some', Option.some.injEq, Prod.mk.injEq] at h1 ⊢
      obtain ⟨hevs, hd⟩ := h1
      have hcomp : p.1.map (fun e => (e.register, e.startNs.val, e.durationNs.val))
          = (p.1.map (fun e => (e.register, e.startNs, e.durationNs))).map
              (fun q => (q.1, q.2.1.val, q.2.2.val)) := by
        rw [List.map_map]; rfl
      refine ⟨?_, by rw [hd]; norm_num [Fr.val]⟩
      rw [hcomp, hevs]
      simp only [List.map_cons, List.map_nil]
      norm_num [Fr.val]
  · have h1 : (compileBlockF 10 none c9Stmts buildCtx frZero none).map
        (fun p => (p.1.map (fun e => (e.register, e.startNs, e.durationNs)), p.2))
        = some ([("p".data, ⟨0, 1⟩, ⟨7, 1⟩), ("q".data, ⟨7, 1⟩, ⟨5, 1⟩)], ⟨12, 1⟩) := by
      decide
    cases hc : compileBlockF 10 none c9Stmts buildCtx frZero none with
    | none => rw [hc] at h1; simp at h1
    | some p =>
      rw [hc] at h1
      simp only [Option.map_some', Option.some.injEq, Prod.mk.injEq] at h1 ⊢
      obtain ⟨hevs, hd⟩ := h1
      have hcomp : p.1.map (fun e => (e.register, e.startNs.val, e.durationNs.val))
          = (p.1.map (fun e => (e.register, e.startNs, e.durationNs))).map
              (fun q => (q.1, q.2.1.val, q.2.2.val)) := by
        rw [List.map_map]; rfl
      refine ⟨?_, by rw [hd]; norm_num [Fr.val]⟩
      rw [hcomp, hevs]
      simp only [List.map_cons, List.map_nil]
      norm_num [Fr.val]

/-!
Claim C3: sequential pulse layout (PulseScheduler._compile_block on
pulse-kind clauses) and the derived schedule duration.
-/

/-- The strict Boolean comparison agrees with the rational order. -/
theorem Fr.ltB_iff (x y : Fr) : x.ltB y = true ↔ x.val < y.val := by
  have hx : (0 : ℚ) < ((x.den : ℕ) : ℚ) := by exact_mod_cast x.den.pos
  have hy : (0 : ℚ) < ((y.den : ℕ) : ℚ) := by exact_mod_cast y.den.pos
  simp only [Fr.ltB, decide_eq_true_eq, Fr.val]
  rw [div_lt_div_iff hx hy]
  constructor
  · intro h; exact_mod_cast h
  · intro h; exact_mod_cast h

/-- One step of the Python max fold, at the value level. -/
theorem frMaxStep_val (a y : Fr) :
    (if a.ltB y then y else a).val = max a.val y.val := by
  by_cases h : a.ltB y = true
  · rw [if_pos h]
    exact (max_eq_right (le_of_lt ((Fr.ltB_iff a y).mp h))).symm
  · rw [if_neg h]
    have : ¬ (a.val < y.val) := fun hc => h ((Fr.ltB_iff a y).mpr hc)
    exact (max_eq_left (le_of_not_lt this)).symm

/-- The max fold of listMaxFr, at the value level. -/
theorem foldlStep_val (xs : List Fr) (a : Fr) :
    (xs.foldl (fun cur x => if cur.ltB x then x else cur) a).val
      = (xs.map Fr.val).foldl max a.val := by
  induction xs generalizing a with
  | nil => rfl
  | cons x xs ih =>
    simp only [List.foldl_cons, List.map_cons]
    rw [ih, frMaxStep_val]

/-- A max fold absorbs a max in its accumulator. -/
theorem foldl_max_shift (l : List ℚ) (a b : ℚ) :
    l.foldl max (max a b) = max a (l.foldl max b) := by
  induction l generalizing b with
  | nil => rfl
  | cons c l ih =>
    simp only [List.foldl_cons]
    rw [max_assoc, ih]

/-- Python max of a list of rationals with default 0 for the empty
list, the value-level counterpart of listMaxFr. -/
def qmax0 : List ℚ → ℚ
  | [] => 0
  | x :: xs => xs.foldl max x

/-- listMaxFr computes the value-level maximum with default 0. -/
theorem listMaxFr_val (l : List Fr) : (listMaxFr l).val = qmax0 (l.map Fr.val) := by
  cases l with
  | nil => simp [listMaxFr, qmax0, frZero, Fr.val]
  | cons x xs =>
    show (xs.foldl (fun cur y => if cur.ltB y then y else cur) x).val = _
    rw [foldlStep_val]
    rfl

/-- listMaxFr of a two-or-more element list splits off its head. -/
theorem listMaxFr_cons2_val (x y : Fr) (ys : List Fr) :
    (listMaxFr (x :: y :: ys)).val = max x.val (listMaxFr (y :: ys)).val := by
  show ((y :: ys).foldl (fun cur z => if cur.ltB z then z else cur) x).val = _
  rw [foldlStep_val]
  show (ys.map Fr.val).foldl max (max x.val y.val) = _
  rw [foldl_max_shift]
  congr 1
  show _ = (ys.foldl (fun cur z => if cur.ltB z then z else cur) y).val
  rw [foldlStep_val]

/-- Whether a clause resolves to a pulse-kind operation in the given
context (the branch of _compile_block that emits one event and
advances the cursor). -/
def isPulseStmtB (s : Stmt) (ctx : Ctx) : Bool :=
  match parseOperation s.text ctx with
  | some (some op, _) => PULSE_KINDS.contains op.kind
  | _ => false

/-- The operation a clause resolves to, if any. -/
def stmtOp (s : Stmt) (ctx : Ctx) : Option PsiOperation :=
  match parseOperation s.text ctx with
  | some (some op, _) => some op
  | _ => none

/-- The parsed duration of the operation a clause resolves to (zero
when it resolves to none). -/
def stmtDur (s : Stmt) (ctx : Ctx) : Fr :=
  match stmtOp s ctx with
  | some op => opDuration op
  | none => frZero

/-- Sequential layout: a block of pulse-kind clauses compiles to one
event per clause, event i starting at the cursor plus the sum of the
earlier durations, with the reported block duration the sum of all
the durations. -/
theorem compileBlockF_seq (ctx : Ctx) (lbl : Option Str) :
    ∀ (stmts : List Stmt) (fuel : Nat) (t : Fr),
    (∀ s ∈ stmts, isPulseStmtB s ctx = true) → stmts.length < fuel →
    ∃ evs d, compileBlockF fuel none stmts ctx t lbl = some (evs, d)
      ∧ evs.length = stmts.length
      ∧ evs.map (fun e => e.durationNs) = stmts.map (fun s => stmtDur s ctx)
      ∧ (∀ i (hi : i < evs.length), (evs.get ⟨i, hi⟩).startNs.val
          = t.val + (((stmts.map (fun s => stmtDur s ctx)).take i).map Fr.val).sum)
      ∧ d.val = ((stmts.map (fun s => stmtDur s ctx)).map Fr.val).sum := by
  intro stmts
  induction stmts with
  | nil =>
    intro fuel t hp hf
    cases fuel with
    | zero => omega
    | succ f =>
      refine ⟨[], frZero, rfl, rfl, rfl, ?_, ?_⟩
      · intro i hi; exact absurd hi (by simp)
      · simp [frZero, Fr.val]
  | cons s rest ih =>
    intro fuel t hp hf
    cases fuel with
    | zero => omega
    | succ f =>
      have hb := hp s (List.mem_cons_self s rest)
      unfold isPulseStmtB at hb
      cases hpu : parseOperation s.text ctx with
      | none => rw [hpu] at hb; exact absurd hb (by simp)
      | some pu =>
        obtain ⟨op?, upd⟩ := pu
        cases hop : op? with
        | none => rw [hpu, hop] at hb; exact absurd hb (by simp)
        | some op =>
          subst hop
          rw [hpu] at hb
          have hdur : stmtDur s ctx = opDuration op := by
            unfold stmtDur stmtOp
            rw [hpu]
          obtain ⟨evs', d', hc', hlen', hdurs', hstarts', hd'⟩ :=
            ih f (t.add (opDuration op)) (fun x hx => hp x (List.mem_cons_of_mem s hx))
              (by simpa using Nat.lt_of_succ_lt_succ hf)
          have hhd : hdOf f none s (some op, upd) ctx t lbl
              = some ([pulseEventOf op t lbl], opDuration op) := by
            unfold hdOf
            dsimp only
            rw [if_pos hb]
            rfl
          refine ⟨pulseEventOf op t lbl :: evs', (opDuration op).add d', ?_, ?_, ?_, ?_, ?_⟩
          · rw [compileBlockF_cons, hpu]
            simp only [Option.some_bind]
            rw [hhd]
            simp only [Option.some_bind]
            rw [hc']
            rfl
          · simpa using hlen'
          · simp only [List.map_cons, hdurs', hdur]
            rfl
          · intro i hi
            cases i with
            | zero =>
              show t.val = t.val + _
              simp
            | succ j =>
              have hj : j < evs'.length := by simpa using hi
              have := hstarts' j hj
              show (evs'.get ⟨j, hj⟩).startNs.val = _
              rw [this, Fr.val_add]
              simp only [List.map_cons, List.take_succ_cons, List.map_cons, List.sum_cons, hdur]
              ring
          · rw [Fr.val_add, hd']
            simp only [List.map_cons, List.sum_cons, hdur]

/-- Derived schedule duration of a sequentially laid-out nonempty
event list with nonnegative durations: the last end time wins, so the
maximum is the start offset plus the sum of the durations. -/
theorem scheduleDuration_seq :
    ∀ (evs : List PulseEvent) (t : Fr) (ds : List Fr),
    evs ≠ [] →
    evs.map (fun e => e.durationNs) = ds →
    (∀ i (hi : i < evs.length), (evs.get ⟨i, hi⟩).startNs.val
        = t.val + ((ds.take i).map Fr.val).sum) →
    (∀ d ∈ ds, 0 ≤ d.val) →
    (scheduleDuration evs).val = t.val + (ds.map Fr.val).sum := by
  intro evs
  induction evs with
  | nil => intro t ds hne; exact absurd rfl hne
  | cons e evs' ih =>
    intro t ds hne hdur hstart hnn
    cases ds with
    | nil => simp at hdur
    | cons d0 ds' =>
      simp only [List.map_cons, List.cons.injEq] at hdur
      obtain ⟨hd0, hds'⟩ := hdur
      have hs0 : e.startNs.val = t.val := by
        have := hstart 0 (by simp)
        simpa using this
      have hend : (e.startNs.add e.durationNs).val = t.val + d0.val := by
        rw [Fr.val_add, hs0, hd0]
      by_cases hevs' : evs' = []
      · subst hevs'
        simp only [List.map_nil] at hds'
        subst hds'
        show (listMaxFr [e.startNs.add e.durationNs]).val = _
        simp only [listMaxFr, List.foldl_nil]
        rw [hend]
        simp
      · have hne' : evs' ≠ [] := hevs'
        have hstart' : ∀ i (hi : i < evs'.length), (evs'.get ⟨i, hi⟩).startNs.val
            = (t.add d0).val + ((ds'.take i).map Fr.val).sum := by
          intro i hi
          have hi2 : i + 1 < (e :: evs').length := by simpa using Nat.succ_lt_succ hi
          have := hstart (i + 1) hi2
          show (evs'.get ⟨i, hi⟩).startNs.val = _
          rw [show ((e :: evs').get ⟨i + 1, hi2⟩) = evs'.get ⟨i, hi⟩ from rfl] at this
          rw [this, Fr.val_add]
          simp only [List.take_succ_cons, List.map_cons, List.sum_cons, hd0]
          ring
        have hrec := ih (t.add d0) ds' hne' hds' hstart'
          (fun d hd => hnn d (List.mem_cons_of_mem d0 hd))
        have hmapne : evs'.map (fun x => x.startNs.add x.durationNs) ≠ [] := by
          simpa using hevs'
        obtain ⟨m, ms, hm⟩ := List.exists_cons_of_ne_nil hmapne
        show (listMaxFr ((e.startNs.add e.durationNs)
            :: evs'.map (fun x => x.startNs.add x.durationNs))).val = _
        rw [hm, listMaxFr_cons2_val, ← hm]
        have hsd : (listMaxFr (evs'.map fun x => x.startNs.add x.durationNs)).val
            = (scheduleDuration evs').val := rfl
        rw [hsd, hrec, hend, Fr.val_add]
        have hsum : 0 ≤ (ds'.map Fr.val).sum :=
          List.sum_nonneg (by
            intro q hq
            obtain ⟨d, hd, rfl⟩ := List.mem_map.mp hq
            exact hnn d (List.mem_cons_of_mem d0 hd))
        simp only [List.map_cons, List.sum_cons]
        rw [max_eq_right (by linarith)]
        ring

/-- Claim C3 (corrected).  A purely sequential block of n pulse-kind
statements scheduled from cursor t yields n events, event i starting
at t plus the sum of durations d0..d(i-1), and reports total duration
equal to the sum of all di; the derived schedule duration (max over
events of start + duration) equals that sum when the block starts at
0 and all durations are nonnegative, which fails for negative parsed
durations (see the counterexample). -/
theorem qscript_c3 (stmts : List Stmt) (ctx : Ctx) (t : Fr) (lbl : Option Str) (fuel : Nat)
    (hp : ∀ s ∈ stmts, isPulseStmtB s ctx = true) (hf : stmts.length < fuel) :
    ∃ evs d, compileBlockF fuel none stmts ctx t lbl = some (evs, d)
      ∧ evs.length = stmts.length
      ∧ evs.map (fun e => e.durationNs) = stmts.map (fun s => stmtDur s ctx)
      ∧ (∀ i (hi : i < evs.length), (evs.get ⟨i, hi⟩).startNs.val
          = t.val + (((stmts.map (fun s => stmtDur s ctx)).take i).map Fr.val).sum)
      ∧ d.val = ((stmts.map (fun s => stmtDur s ctx)).map Fr.val).sum
      ∧ (t.val = 0 → (∀ s ∈ stmts, 0 ≤ (stmtDur s ctx).val) →
          (scheduleDuration evs).val
            = ((stmts.map (fun s => stmtDur s ctx)).map Fr.val).sum) := by
  obtain ⟨evs, d, hc, hlen, hdurs, hstarts, hd⟩ := compileBlockF_seq ctx lbl stmts fuel t hp hf
  refine ⟨evs, d, hc, hlen, hdurs, hstarts, hd, ?_⟩
  intro ht hnn
  cases hevs : evs with
  | nil =>
    subst hevs
    have hst : stmts = [] := by
      cases stmts with
      | nil => rfl
      | cons a l => simp at hlen
    subst hst
    show (listMaxFr []).val = _
    simp [listMaxFr, frZero, Fr.val]
  | cons e evs' =>
    subst hevs
    have hres := scheduleDuration_seq (e :: evs') t (stmts.map (fun s => stmtDur s ctx))
      (List.cons_ne_nil e evs') hdurs hstarts (fun dd hdd => by
        obtain ⟨s, hs, rfl⟩ := List.mem_map.mp hdd
        exact hnn s hs)
    rw [hres, ht]
    ring

/-- A sequential block whose second wait has a negative duration. -/
def c3Stmts : List Stmt :=
  [Stmt.mk "Wait(duration: 10ns)".data [],
    Stmt.mk "Wait(duration: -5ns)".data []]

/-- Counterexample to the unconditional derived-duration conjunct of
C3: with durations 10ns and -5ns the reported (summed) duration is
5ns but the derived max-over-events duration is 10ns. -/
theorem qscript_c3_counterexample :
    (∀ s ∈ c3Stmts, isPulseStmtB s buildCtx = true)
      ∧ (compileBlockF 10 none c3Stmts buildCtx frZero none).map
          (fun p => ((scheduleDuration p.1).val, p.2.val)) = some (10, 5)
      ∧ (10 : ℚ) ≠ 5 := by
  refine ⟨by decide, ?_, by norm_num⟩
  have h1 : (compileBlockF 10 none c3Stmts buildCtx frZero none).map
      (fun p => (scheduleDuration p.1, p.2)) = some (⟨10, 1⟩, ⟨5, 1⟩) := by decide
  cases hc : compileBlockF 10 none c3Stmts buildCtx frZero none with
  | none => rw [hc] at h1; simp at h1
  | some p =>
    rw [hc] at h1
    simp only [Option.map_some', Option.some.injEq, Prod.mk.injEq] at h1 ⊢
    obtain ⟨hsd, hd⟩ := h1
    exact ⟨by rw [hsd]; norm_num [Fr.val], by rw [hd]; norm_num [Fr.val]⟩

/-- Two positive waits for the C3 witness. -/
def c3wStmts : List Stmt :=
  [Stmt.mk "Wait(duration: 10ns)".data [],
    Stmt.mk "Wait(duration: 5ns)".data []]

/-- Witness for C3 at a concrete two-wait block (durations 10ns and
5ns at cursor 0). -/
theorem qscript_c3_witness :
    ∃ evs d, compileBlockF 3 none c3wStmts buildCtx frZero none = some (evs, d)
      ∧ evs.length = c3wStmts.length
      ∧ evs.map (fun e => e.durationNs) = c3wStmts.map (fun s => stmtDur s buildCtx)
      ∧ (∀ i (hi : i < evs.length), (evs.get ⟨i, hi⟩).startNs.val
          = frZero.val + (((c3wStmts.map (fun s => stmtDur s buildCtx)).take i).map Fr.val).sum)
      ∧ d.val = ((c3wStmts.map (fun s => stmtDur s buildCtx)).map Fr.val).sum
      ∧ (frZero.val = 0 → (∀ s ∈ c3wStmts, 0 ≤ (stmtDur s buildCtx).val) →
          (scheduleDuration evs).val
            = ((c3wStmts.map (fun s => stmtDur s buildCtx)).map Fr.val).sum) :=
  qscript_c3 c3wStmts buildCtx frZero none 3 (by decide) (by decide)

/-!
Claim C2: Align blocks (PulseScheduler._compile_align): shared start
cursor, maximum branch duration, branch labels.
-/

/-- The operation kind each dispatch branch constructs. -/
def tagKind : DTag → Str
  | .superpose => "superpose".data
  | .phase => "phase".data
  | .flip => "flip".data
  | .reflectT => "reflect".data
  | .measureT => "measure".data
  | .analogT => "analog".data
  | .alignT => "align".data
  | .branchT => "branch".data
  | .rotate => "rotate".data
  | .waitT => "wait".data
  | .shiftphase => "shiftphase".data
  | .setfreq => "setfreq".data
  | .play => "play".data
  | .acquire => "acquire".data
  | .unknown => []

/-- The kind of a resolved operation is determined by the dispatch
branch its clause text reaches. -/
theorem parseOperation_kind (stmt : Str) (ctx : Ctx) (op : PsiOperation) (upd : CtxUpdate)
    (h : parseOperation stmt ctx = some (some op, upd)) :
    op.kind = tagKind (dispatchTag stmt) := by
  unfold parseOperation at h
  cases htag : dispatchTag stmt <;> rw [htag] at h
  case superpose =>
    simp only [parseSuperpose, Option.bind_eq_bind, Option.bind_eq_some, Option.pure_def,
      Option.some.injEq, Prod.mk.injEq] at h
    obtain ⟨ra, hra, targets, htg, ⟨hop, -⟩⟩ := h
    rw [← hop]
    rfl
  case phase =>
    simp only [parsePhase, Option.bind_eq_bind, Option.bind_eq_some, Option.pure_def,
      Option.some.injEq, Prod.mk.injEq] at h
    obtain ⟨ra, hra, a, ha, ⟨hop, -⟩⟩ := h
    rw [← hop]
    rfl
  case flip =>
    simp only [parseFlip, Option.bind_eq_bind, Option.bind_eq_some, Option.pure_def,
      Option.some.injEq, Prod.mk.injEq] at h
    obtain ⟨ra, hra, tg, htg, ⟨hop, -⟩⟩ := h
    rw [← hop]
    rfl
  case reflectT =>
    simp only [parseReflect, Option.bind_eq_bind, Option.bind_eq_some, Option.pure_def,
      Option.some.injEq, Prod.mk.injEq] at h
    obtain ⟨ra, hra, ⟨hop, -⟩⟩ := h
    rw [← hop]
    rfl
  case measureT =>
    cases hm : parseMeasurement stmt with
    | none => rw [hm] at h; simp at h
    | some op0 =>
      rw [hm] at h
      simp only [Option.some.injEq, Prod.mk.injEq] at h
      obtain ⟨hop, -⟩ := h
      unfold parseMeasurement at hm
      cases hmi : matchMeasureIndexed stmt with
      | some cri =>
        rw [hmi] at hm
        simp only [Option.some.injEq] at hm
        rw [← hop, ← hm]
        rfl
      | none =>
        rw [hmi] at hm
        cases hm2 : matchMeasureMethod stmt with
        | none => rw [hm2] at hm; simp at hm
        | some cr =>
          rw [hm2] at hm
          simp only [Option.some.injEq] at hm
          rw [← hop, ← hm]
          rfl
  case analogT =>
    simp only [parseAnalog, Option.bind_eq_bind, Option.bind_eq_some, Option.pure_def,
      Option.some.injEq, Prod.mk.injEq] at h
    obtain ⟨args, hargs, ⟨hop, -⟩⟩ := h
    rw [← hop]
    rfl
  case alignT =>
    simp only [parseAlign, Option.some.injEq, Prod.mk.injEq] at h
    obtain ⟨hop, -⟩ := h
    rw [← hop]
    rfl
  case branchT =>
    simp only [parseBranch, Option.some.injEq, Prod.mk.injEq] at h
    obtain ⟨hop, -⟩ := h
    rw [← hop]
    rfl
  case rotate =>
    simp only [parseRotate, Option.bind_eq_bind, Option.bind_eq_some, Option.pure_def,
      Option.some.injEq, Prod.mk.injEq] at h
    obtain ⟨args, hargs, ⟨hop, -⟩⟩ := h
    rw [← hop]
    rfl
  case waitT =>
    simp only [parseWait, Option.bind_eq_bind, Option.bind_eq_some, Option.pure_def,
      Option.some.injEq, Prod.mk.injEq] at h
    obtain ⟨args, hargs, ⟨hop, -⟩⟩ := h
    rw [← hop]
    rfl
  case shiftphase =>
    simp only [parseShiftPhase, Option.bind_eq_bind, Option.bind_eq_some, Option.pure_def,
      Option.some.injEq, Prod.mk.injEq] at h
    obtain ⟨args, hargs, ⟨hop, -⟩⟩ := h
    rw [← hop]
    rfl
  case setfreq =>
    simp only [parseSetFreq, Option.bind_eq_bind, Option.bind_eq_some, Option.pure_def,
      Option.some.injEq, Prod.mk.injEq] at h
    obtain ⟨args, hargs, ⟨hop, -⟩⟩ := h
    rw [← hop]
    rfl
  case play =>
    simp only [parsePlay, Option.bind_eq_bind, Option.bind_eq_some, Option.pure_def,
      Option.some.injEq, Prod.mk.injEq] at h
    obtain ⟨args, hargs, ⟨hop, -⟩⟩ := h
    rw [← hop]
    rfl
  case acquire =>
    simp only [parseAcquire, Option.bind_eq_bind, Option.bind_eq_some, Option.pure_def,
      Option.some.injEq, Prod.mk.injEq] at h
    obtain ⟨args, hargs, ⟨hop, -⟩⟩ := h
    rw [← hop]
    rfl
  case unknown =>
    simp at h

/-- Only a clause starting with Align dispatches to the Align branch. -/
theorem dispatchTag_align_starts (stmt : Str) (h : dispatchTag stmt = DTag.alignT) :
    "Align".data.isPrefixOf stmt = true := by
  unfold dispatchTag at h
  by_cases h1 : containsSub ".Superpose".data stmt = true
  · rw [if_pos h1] at h; exact absurd h (by decide)
  · rw [if_neg h1] at h
    by_cases h2 : containsSub ".Phase".data stmt = true
    · rw [if_pos h2] at h; exact absurd h (by decide)
    · rw [if_neg h2] at h
      by_cases h3 : containsSub ".Flip".data stmt = true
      · rw [if_pos h3] at h; exact absurd h (by decide)
      · rw [if_neg h3] at h
        by_cases h4 : containsSub ".Reflect".data stmt = true
        · rw [if_pos h4] at h; exact absurd h (by decide)
        · rw [if_neg h4] at h
          by_cases h5 : (containsSub "Measure".data stmt && (parseMeasurement stmt).isSome) = true
          · rw [if_pos h5] at h; exact absurd h (by decide)
          · rw [if_neg h5] at h
            by_cases h6 : "Analog".data.isPrefixOf stmt = true
            · rw [if_pos h6] at h; exact absurd h (by decide)
            · rw [if_neg h6] at h
              by_cases h7 : "Align".data.isPrefixOf stmt = true
              · exact h7
              · rw [if_neg h7] at h
                by_cases h8 : "branch".data.isPrefixOf stmt = true
                · rw [if_pos h8] at h; exact absurd h (by decide)
                · rw [if_neg h8] at h
                  by_cases h9 : "Rotate".data.isPrefixOf stmt = true
                  · rw [if_pos h9] at h; exact absurd h (by decide)
                  · rw [if_neg h9] at h
                    by_cases h10 : "Wait".data.isPrefixOf stmt = true
                    · rw [if_pos h10] at h; exact absurd h (by decide)
                    · rw [if_neg h10] at h
                      by_cases h11 : "ShiftPhase".data.isPrefixOf stmt = true
                      · rw [if_pos h11] at h; exact absurd h (by decide)
                      · rw [if_neg h11] at h
                        by_cases h12 : "SetFreq".data.isPrefixOf stmt = true
                        · rw [if_pos h12] at h; exact absurd h (by decide)
                        · rw [if_neg h12] at h
                          by_cases h13 : "Play".data.isPrefixOf stmt = true
                          · rw [if_pos h13] at h; exact absurd h (by decide)
                          · rw [if_neg h13] at h
                            by_cases h14 : "Acquire".data.isPrefixOf stmt = true
                            · rw [if_pos h14] at h; exact absurd h (by decide)
                            · rw [if_neg h14] at h
                              exact absurd h (by decide)

/-- Only a clause starting with the word branch dispatches to the
branch clause. -/
theorem dispatchTag_branch (stmt : Str) (h : dispatchTag stmt = DTag.branchT) :
    "branch".data.isPrefixOf stmt = true := by
  unfold dispatchTag at h
  by_cases h1 : containsSub ".Superpose".data stmt = true
  · rw [if_pos h1] at h; exact absurd h (by decide)
  · rw [if_neg h1] at h
    by_cases h2 : containsSub ".Phase".data stmt = true
    · rw [if_pos h2] at h; exact absurd h (by decide)
    · rw [if_neg h2] at h
      by_cases h3 : containsSub ".Flip".data stmt = true
      · rw [if_pos h3] at h; exact absurd h (by decide)
      · rw [if_neg h3] at h
        by_cases h4 : containsSub ".Reflect".data stmt = true
        · rw [if_pos h4] at h; exact absurd h (by decide)
        · rw [if_neg h4] at h
          by_cases h5 : (containsSub "Measure".data stmt && (parseMeasurement stmt).isSome) = true
          · rw [if_pos h5] at h; exact absurd h (by decide)
          · rw [if_neg h5] at h
            by_cases h6 : "Analog".data.isPrefixOf stmt = true
            · rw [if_pos h6] at h; exact absurd h (by decide)
            · rw [if_neg h6] at h
              by_cases h7 : "Align".data.isPrefixOf stmt = true
              · rw [if_pos h7] at h; exact absurd h (by decide)
              · rw [if_neg h7] at h
                by_cases h8 : "branch".data.isPrefixOf stmt = true
                · exact h8
                · rw [if_neg h8] at h
                  by_cases h9 : "Rotate".data.isPrefixOf stmt = true
                  · rw [if_pos h9] at h; exact absurd h (by decide)
                  · rw [if_neg h9] at h
                    by_cases h10 : "Wait".data.isPrefixOf stmt = true
                    · rw [if_pos h10] at h; exact absurd h (by decide)
                    · rw [if_neg h10] at h
                      by_cases h11 : "ShiftPhase".data.isPrefixOf stmt = true
                      · rw [if_pos h11] at h; exact absurd h (by decide)
                      · rw [if_neg h11] at h
                        by_cases h12 : "SetFreq".data.isPrefixOf stmt = true
                        · rw [if_pos h12] at h; exact absurd h (by decide)
                        · rw [if_neg h12] at h
                          by_cases h13 : "Play".data.isPrefixOf stmt = true
                          · rw [if_pos h13] at h; exact absurd h (by decide)
                          · rw [if_neg h13] at h
                            by_cases h14 : "Acquire".data.isPrefixOf stmt = true
                            · rw [if_pos h14] at h; exact absurd h (by decide)
                            · rw [if_neg h14] at h
                              exact absurd h (by decide)

/-- Only the Align dispatch branch constructs kind align. -/
theorem tagKind_align (tag : DTag) (h : tagKind tag = "align".data) : tag = DTag.alignT := by
  cases tag <;> first | rfl | exact absurd h (by decide)

/-- Only the branch dispatch branch constructs kind branch. -/
theorem tagKind_branch (tag : DTag) (h : tagKind tag = "branch".data) : tag = DTag.branchT := by
  cases tag <;> first | rfl | exact absurd h (by decide)

/-- An operation of kind align only arises from a clause whose text
starts with the word Align. -/
theorem align_kind_starts (stmt : Str) (ctx : Ctx) (op : PsiOperation) (upd : CtxUpdate)
    (h : parseOperation stmt ctx = some (some op, upd)) (hk : op.kind = "align".data) :
    "Align".data.isPrefixOf stmt = true := by
  have := parseOperation_kind stmt ctx op upd h
  rw [hk] at this
  exact dispatchTag_align_starts stmt (tagKind_align _ this.symm)

/-- The label text of a branch clause: the trimmed raw text after the
first space (the word branch itself when there is no space). -/
def branchLabelText (stmt : Str) : Str :=
  match splitFirst [' '] stmt with
  | some p => pyStrip p.2
  | none => "branch".data

/-- A branch-kind operation carries metadata whose label entry is the
trimmed raw reference text of the clause. -/
theorem branch_label (stmt : Str) (ctx : Ctx) (op : PsiOperation) (upd : CtxUpdate)
    (h : parseOperation stmt ctx = some (some op, upd)) (hk : op.kind = "branch".data) :
    branchLabelOf (some op) = some (branchLabelText stmt) := by
  have hkind := parseOperation_kind stmt ctx op upd h
  rw [hk] at hkind
  have htag := tagKind_branch _ hkind.symm
  unfold parseOperation at h
  rw [htag] at h
  simp only [parseBranch, Option.some.injEq, Prod.mk.injEq] at h
  obtain ⟨hop, -⟩ := h
  rw [← hop]
  unfold branchLabelOf branchLabelText
  rfl

/-- Syntactic absence of Align clauses in a statement forest (fuel
mirrors the walk depth of _compile_block). -/
def noAlignTexts : Nat → List Stmt → Bool
  | 0, _ => false
  | _ + 1, [] => true
  | fuel + 1, s :: rest =>
    !("Align".data.isPrefixOf s.text) && noAlignTexts fuel s.children
      && noAlignTexts fuel rest

/-- Label constancy: inside a subtree with no Align clause, every
event produced by the walk carries exactly the branch label the walk
was started with. -/
theorem compileBlockF_label (filt : Option Str) :
    ∀ (fuel : Nat) (stmts : List Stmt) (ctx : Ctx) (t : Fr) (lbl : Option Str)
      (evs : List PulseEvent) (d : Fr),
    noAlignTexts fuel stmts = true →
    compileBlockF fuel filt stmts ctx t lbl = some (evs, d) →
    ∀ e ∈ evs, e.branch = lbl := by
  intro fuel
  induction fuel with
  | zero => intro stmts ctx t lbl evs d hna; exact absurd hna (by simp [noAlignTexts])
  | succ f ih =>
    intro stmts ctx t lbl evs d hna hc
    cases stmts with
    | nil =>
      simp only [compileBlockF, Option.some.injEq, Prod.mk.injEq] at hc
      obtain ⟨hevs, -⟩ := hc
      rw [← hevs]
      intro e he
      exact absurd he (List.not_mem_nil e)
    | cons s rest =>
      simp only [noAlignTexts, Bool.and_eq_true, Bool.not_eq_true'] at hna
      obtain ⟨⟨hpre, hnac⟩, hnar⟩ := hna
      rw [compileBlockF_cons] at hc
      cases hpu : parseOperation s.text ctx with
      | none => rw [hpu] at hc; simp at hc
      | some pu =>
        rw [hpu] at hc
        simp only [Option.some_bind, Option.bind_eq_some] at hc
        obtain ⟨hd, hhd, tl, htl, hpair⟩ := hc
        simp only [Option.some.injEq, Prod.mk.injEq] at hpair
        obtain ⟨hevs, -⟩ := hpair
        have hdlbl : ∀ e ∈ hd.1, e.branch = lbl := by
          unfold hdOf at hhd
          cases hop : pu.1 with
          | none =>
            rw [hop] at hhd
            dsimp only at hhd
            by_cases hch : s.children.isEmpty
            · rw [if_pos hch] at hhd
              simp only [Option.some.injEq] at hhd
              rw [← hhd]
              intro e he
              exact absurd he (List.not_mem_nil e)
            · rw [if_neg hch] at hhd
              cases hd with
              | mk evs1 d1 => exact ih s.children (applyUpd ctx pu.2) t lbl evs1 d1 hnac hhd
          | some op =>
            rw [hop] at hhd
            dsimp only at hhd
            by_cases hpk : PULSE_KINDS.contains op.kind = true
            · rw [if_pos hpk] at hhd
              simp only [Option.some.injEq] at hhd
              rw [← hhd]
              unfold lowerPulseOp
              by_cases hinc : includeEvent filt op.register = true
              · rw [if_pos hinc]
                intro e he
                simp only [List.mem_singleton] at he
                rw [he]
                rfl
              · rw [if_neg hinc]
                intro e he
                exact absurd he (List.not_mem_nil e)
            · rw [if_neg hpk] at hhd
              by_cases han : op.kind = "analog".data
              · rw [if_pos han] at hhd
                cases hd with
                | mk evs1 d1 => exact ih s.children (applyUpd ctx pu.2) t lbl evs1 d1 hnac hhd
              · rw [if_neg han] at hhd
                by_cases hal : op.kind = "align".data
                · exact absurd (align_kind_starts s.text ctx op pu.2 (by rw [hpu, ← hop]) hal)
                    (by rw [hpre]; simp)
                · rw [if_neg hal] at hhd
                  by_cases hch : s.children.isEmpty
                  · rw [if_pos hch] at hhd
                    simp only [Option.some.injEq] at hhd
                    rw [← hhd]
                    intro e he
                    exact absurd he (List.not_mem_nil e)
                  · rw [if_neg hch] at hhd
                    cases hd with
                    | mk evs1 d1 =>
                      exact ih s.children (applyUpd ctx pu.2) t lbl evs1 d1 hnac hhd
        have htlbl : ∀ e ∈ tl.1, e.branch = lbl := by
          cases tl with
          | mk evs2 d2 => exact ih rest ctx (t.add hd.2) lbl evs2 d2 hnar htl
        rw [← hevs]
        intro e he
        rcases List.mem_append.mp he with h1 | h2
        · exact hdlbl e h1
        · exact htlbl e h2

/-- Every branch of an align result is the independent compilation of
the corresponding branch statement from the same start time. -/
theorem alignGo_get
    (rec : List Stmt → Ctx → Fr → Option Str → Option (List PulseEvent × Fr)) :
    ∀ (bs : List Stmt) (ctx : Ctx) (t : Fr) (rs : List (List PulseEvent × Fr)),
    alignGo rec bs ctx t = some rs →
    rs.length = bs.length
      ∧ ∀ i (hi : i < bs.length) (hi2 : i < rs.length),
          branchStep rec ctx t (bs.get ⟨i, hi⟩) = some (rs.get ⟨i, hi2⟩) := by
  intro bs
  induction bs with
  | nil =>
    intro ctx t rs h
    simp only [alignGo, Option.some.injEq] at h
    subst h
    exact ⟨rfl, fun i hi => absurd hi (by simp)⟩
  | cons b bs ih =>
    intro ctx t rs h
    have h2 : (branchStep rec ctx t b).bind (fun r =>
        (alignGo rec bs ctx t).bind (fun rs2 => some (r :: rs2))) = some rs := h
    simp only [Option.bind_eq_some, Option.some.injEq] at h2
    obtain ⟨r, hr, rs2, hrs2, hcons⟩ := h2
    obtain ⟨hlen2, hget2⟩ := ih ctx t rs2 hrs2
    subst hcons
    refine ⟨by simpa using hlen2, ?_⟩
    intro i hi hi2
    cases i with
    | zero => exact hr
    | succ j =>
      have hj : j < bs.length := by simpa using hi
      have hj2 : j < rs2.length := by simpa using hi2
      exact hget2 j hj hj2

/-- Claim C2 (corrected).  For an Align clause resolved at cursor t:
the walk compiles every branch child independently from the same
cursor t (branch i of the result is exactly the compilation of branch
child i started at t, not chained), and advances the enclosing cursor
by the value-maximum of the branch durations, 0 when there are no
branches; events carry the label of the innermost enclosing branch:
inside an align-free branch subtree every event carries the label the
branch was started with (a nested Align relabels, see the
counterexample), and a branch clause contributes as label the trimmed
raw text after the word branch. -/
theorem qscript_c2 (fuel : Nat) (filt : Option Str) (s : Stmt) (rest : List Stmt)
    (ctx : Ctx) (t : Fr) (lbl : Option Str) (op : PsiOperation) (upd : CtxUpdate)
    (hpu : parseOperation s.text ctx = some (some op, upd))
    (hk : op.kind = "align".data) :
    (compileBlockF (fuel + 1) filt (s :: rest) ctx t lbl
      = (alignGo (compileBlockF fuel filt) s.children (applyUpd ctx upd) t).bind (fun rs =>
          (compileBlockF fuel filt rest ctx
              (t.add (listMaxFr (rs.map Prod.snd))) lbl).bind (fun tl =>
            some ((rs.map Prod.fst).join ++ tl.1,
              (listMaxFr (rs.map Prod.snd)).add tl.2))))
    ∧ (∀ rs, alignGo (compileBlockF fuel filt) s.children (applyUpd ctx upd) t = some rs →
        rs.length = s.children.length
        ∧ (∀ i (hi : i < s.children.length) (hi2 : i < rs.length),
            branchStep (compileBlockF fuel filt) (applyUpd ctx upd) t
                (s.children.get ⟨i, hi⟩) = some (rs.get ⟨i, hi2⟩))
        ∧ (t.add (listMaxFr (rs.map Prod.snd))).val
            = t.val + qmax0 ((rs.map Prod.snd).map Fr.val))
    ∧ (∀ (stmts2 : List Stmt) (ctx2 : Ctx) (t2 : Fr) (lbl2 : Option Str)
          (evs : List PulseEvent) (d : Fr),
        noAlignTexts fuel stmts2 = true →
        compileBlockF fuel filt stmts2 ctx2 t2 lbl2 = some (evs, d) →
        ∀ e ∈ evs, e.branch = lbl2)
    ∧ (∀ (stmt2 : Str) (ctx2 : Ctx) (op2 : PsiOperation) (upd2 : CtxUpdate),
        parseOperation stmt2 ctx2 = some (some op2, upd2) → op2.kind = "branch".data →
        branchLabelOf (some op2) = some (branchLabelText stmt2)) := by
  refine ⟨?_, ?_, compileBlockF_label filt fuel, branch_label⟩
  · rw [compileBlockF_cons, hpu]
    simp only [Option.some_bind]
    have hpk : ¬ PULSE_KINDS.contains op.kind = true := by rw [hk]; decide
    have han : ¬ op.kind = "analog".data := by rw [hk]; decide
    have hhd : hdOf fuel filt s (some op, upd) ctx t lbl
        = (alignGo (compileBlockF fuel filt) s.children (applyUpd ctx upd) t).bind
            (fun rs => some ((rs.map Prod.fst).join, listMaxFr (rs.map Prod.snd))) := by
      unfold hdOf
      dsimp only
      rw [if_neg hpk, if_neg han, if_pos hk]
      rfl
    rw [hhd]
    cases halign : alignGo (compileBlockF fuel filt) s.children (applyUpd ctx upd) t with
    | none => rfl
    | some rs => rfl
  · intro rs hrs
    obtain ⟨hlen, hget⟩ := alignGo_get (compileBlockF fuel filt)
      s.children (applyUpd ctx upd) t rs hrs
    refine ⟨hlen, hget, ?_⟩
    rw [Fr.val_add, listMaxFr_val]

/-- An Align whose single branch q[0] contains another Align with a
single branch q[1] holding one wait. -/
def c2Tree : List Stmt :=
  [Stmt.mk "Align".data
    [Stmt.mk "branch q[0]".data
      [Stmt.mk "Align".data
        [Stmt.mk "branch q[1]".data
          [Stmt.mk "Wait(duration: 10ns)".data []]]]]]

/-- Counterexample to the unconditional label conjunct of C2: in a
nested Align the outer branch q[0] contains an inner branch q[1], and
the one event of the subtree carries the inner label q[1], not the
label q[0] of the branch of the outer Align block it sits in. -/
theorem qscript_c2_counterexample :
    (parseOperation "branch q[0]".data ⟨"align".data, some "q".data, none⟩).map
        (fun pu => branchLabelOf pu.1) = some (some "q[0]".data)
      ∧ (compileBlockF 10 none c2Tree buildCtx frZero none).map
          (fun p => p.1.map (fun e => e.branch)) = some [some "q[1]".data]
      ∧ some "q[1]".data ≠ some "q[0]".data := by
  exact ⟨by decide, by decide, by decide⟩

/-- A single Align statement with one branch holding one wait, for the
C2 witness. -/
def c2s : Stmt :=
  Stmt.mk "Align".data
    [Stmt.mk "branch q[0]".data [Stmt.mk "Wait(duration: 10ns)".data []]]

/-- The operation the Align clause of the witness resolves to. -/
def c2op : PsiOperation :=
  { kind := "align".data, register := "q".data, raw := "Align".data,
    scope := "align".data }

/-- The context override the Align clause of the witness resolves to. -/
def c2upd : CtxUpdate := { scope := some "align".data }

/-- Witness for C2 at a concrete one-branch Align statement. -/
theorem qscript_c2_witness :
    (compileBlockF (9 + 1) none (c2s :: []) buildCtx frZero none
      = (alignGo (compileBlockF 9 none) c2s.children (applyUpd buildCtx c2upd) frZero).bind
          (fun rs =>
            (compileBlockF 9 none [] buildCtx
                (frZero.add (listMaxFr (rs.map Prod.snd))) none).bind (fun tl =>
              some ((rs.map Prod.fst).join ++ tl.1,
                (listMaxFr (rs.map Prod.snd)).add tl.2))))
    ∧ (∀ rs, alignGo (compileBlockF 9 none) c2s.children (applyUpd buildCtx c2upd) frZero
          = some rs →
        rs.length = c2s.children.length
        ∧ (∀ i (hi : i < c2s.children.length) (hi2 : i < rs.length),
            branchStep (compileBlockF 9 none) (applyUpd buildCtx c2upd) frZero
                (c2s.children.get ⟨i, hi⟩) = some (rs.get ⟨i, hi2⟩))
        ∧ (frZero.add (listMaxFr (rs.map Prod.snd))).val
            = frZero.val + qmax0 ((rs.map Prod.snd).map Fr.val))
    ∧ (∀ (stmts2 : List Stmt) (ctx2 : Ctx) (t2 : Fr) (lbl2 : Option Str)
          (evs : List PulseEvent) (d : Fr),
        noAlignTexts 9 stmts2 = true →
        compileBlockF 9 none stmts2 ctx2 t2 lbl2 = some (evs, d) →
        ∀ e ∈ evs, e.branch = lbl2)
    ∧ (∀ (stmt2 : Str) (ctx2 : Ctx) (op2 : PsiOperation) (upd2 : CtxUpdate),
        parseOperation stmt2 ctx2 = some (some op2, upd2) → op2.kind = "branch".data →
        branchLabelOf (some op2) = some (branchLabelText stmt2)) :=
  qscript_c2 9 none c2s [] buildCtx frZero none c2op c2upd rfl rfl
